import Mathlib

set_option maxRecDepth 100000

/-!
Verification development for the haystackdb vector database.

Modelling conventions, shared by the whole file:

- Rust byte slices and strings are modelled as lists of naturals
  (each entry standing for one byte); Rust String keys and values are
  modelled by their UTF-8 byte lists, so that as_bytes and from_utf8
  are identities of the model.
- Machine integers (u8, u32, u64, u128, usize, i64) are modelled as Nat
  or Int with explicit bounds where overflow matters; little-endian
  encodings are spelled out byte by byte.
- f32 and f64 values are modelled by integer stand-ins: the claims and
  counterexamples in this file only use finite, exactly representable
  values, on which IEEE comparison agrees with integer comparison, and
  the bit pattern of 0.0 corresponds to the stand-in 0. The 4-byte
  little-endian encoding of an f32 is modelled by an injective 4-byte
  encoding of the stand-in.
- Hash maps (ahash AHashMap) are modelled as association lists whose
  iteration order is insertion order, and hash sets as duplicate-free
  lists; insert replaces in place.
- Fallible or panicking Rust code is modelled with Option / Except:
  a none result stands for a panic (for example Option.unwrap on None).
- Loops whose bound is not structural take explicit fuel; every theorem
  below supplies fuel large enough that the model and the source agree.
-/

/-! ## Byte strings and little-endian integer encodings -/

/-- A Rust byte slice or UTF-8 string, one Nat per byte. -/
abbrev ByteStr := List Nat

/-- Little-endian encoding of a natural into w bytes, as in to_le_bytes. -/
def natToLE (w n : Nat) : List Nat :=
  (List.range w).map (fun i => n / 256 ^ i % 256)

/-- Little-endian decoding of a byte list, as in from_le_bytes. -/
def natFromLE (bs : List Nat) : Nat :=
  bs.foldr (fun b acc => b + 256 * acc) 0

@[simp] theorem natToLE_length (w n : Nat) : (natToLE w n).length = w := by
  simp [natToLE]

theorem natToLE_succ (w n : Nat) :
    natToLE (w + 1) n = n % 256 :: natToLE w (n / 256) := by
  simp only [natToLE, List.range_succ_eq_map, List.map_cons, List.map_map]
  congr 1
  · simp
  · apply List.map_congr_left
    intro i _
    simp only [Function.comp_apply]
    rw [Nat.div_div_eq_div_mul, Nat.pow_succ, Nat.mul_comm 256 (256 ^ i)]

@[simp] theorem natFromLE_nil : natFromLE [] = 0 := rfl

@[simp] theorem natFromLE_cons (b : Nat) (bs : List Nat) :
    natFromLE (b :: bs) = b + 256 * natFromLE bs := rfl

theorem natFromLE_natToLE (w n : Nat) (h : n < 256 ^ w) :
    natFromLE (natToLE w n) = n := by
  induction w generalizing n with
  | zero => simp at h; simp [natToLE, h]
  | succ w ih =>
      rw [natToLE_succ, natFromLE_cons, ih (n / 256) (by
        have : 256 ^ (w + 1) = 256 ^ w * 256 := by ring
        omega)]
      omega

/-- The integer stand-in for an f32 or i64 value, encoded as w bytes by
reinterpreting it in two's complement, as in to_le_bytes on i64 and on the
bit pattern of an f32. -/
def intToLE (w : Nat) (x : Int) : List Nat :=
  natToLE w (x % (256 ^ w : Nat)).toNat

/-- Two's-complement decoding of w bytes back into an integer. -/
def intFromLE (bs : List Nat) : Int :=
  let n := natFromLE bs
  if n < 256 ^ bs.length / 2 then (n : Int)
  else (n : Int) - (256 ^ bs.length : Nat)

@[simp] theorem intToLE_length (w : Nat) (x : Int) : (intToLE w x).length = w := by
  simp [intToLE]

theorem intFromLE_intToLE (w : Nat) (x : Int)
    (h1 : -(256 ^ w / 2 : Nat) ≤ x) (h2 : x < (256 ^ w / 2 : Nat)) :
    intFromLE (intToLE w x) = x := by
  have hw : (0:Int) < (256 ^ w : Nat) := by positivity
  have hmod : x % (256 ^ w : Nat) = x ∨ x % (256 ^ w : Nat) = x + (256 ^ w : Nat) := by
    rcases le_or_lt 0 x with hx | hx
    · left
      exact Int.emod_eq_of_lt hx (by
        have : ((256 ^ w / 2 : Nat) : Int) ≤ (256 ^ w : Nat) := by
          have := Nat.div_le_self (256 ^ w) 2
          exact_mod_cast this
        omega)
    · right
      have hlt : x + (256 ^ w : Nat) < (256 ^ w : Nat) + 0 := by omega
      have h0 : (0:Int) ≤ x + (256 ^ w : Nat) := by
        have : ((256 ^ w / 2 : Nat) : Int) * 2 ≤ ((256 ^ w : Nat) : Int) := by
          have := Nat.div_mul_le_self (256 ^ w) 2
          exact_mod_cast Nat.le_of_eq (rfl) |>.trans this
        omega
      have heq : x % (256 ^ w : Nat) = (x + (256 ^ w : Nat)) % (256 ^ w : Nat) := by
        have h := @Int.add_mul_emod_self_left x ((256 ^ w : Nat) : Int) 1
        simp only [mul_one] at h
        exact h.symm
      rw [heq]
      exact Int.emod_eq_of_lt h0 (by omega)
  have hpow : 256 ^ w / 2 * 2 = 256 ^ w ∨ w = 0 := by
    cases w with
    | zero => right; rfl
    | succ w =>
        left
        have : 256 ^ (w + 1) = 2 * (128 * 256 ^ w) := by ring
        omega
  unfold intFromLE intToLE
  rcases hmod with hm | hm
  · rw [hm]
    have hx0 : 0 ≤ x := by
      rcases hpow with hp | hp
      · omega
      · subst hp; simp at h1 h2; omega
    rw [natFromLE_natToLE]
    · simp only [natToLE_length]
      rw [Int.toNat_of_nonneg hx0]
      have : x.toNat < 256 ^ w / 2 := by omega
      simp only [natToLE_length] at *
      split
      · omega
      · omega
    · have : (x.toNat : Int) = x := Int.toNat_of_nonneg hx0
      have hxlt : x < (256 ^ w : Nat) := by
        have := Nat.div_le_self (256 ^ w) 2
        have : ((256 ^ w / 2 : Nat) : Int) ≤ ((256 ^ w : Nat) : Int) := by exact_mod_cast this
        omega
      omega
  · rw [hm]
    have hx0 : x < 0 := by
      rcases hpow with hp | hp
      · by_contra hcon
        push_neg at hcon
        have : x % (256 ^ w : Nat) = x := Int.emod_eq_of_lt hcon (by omega)
        omega
      · subst hp; simp at h1 h2; omega
    have hge : 0 ≤ x + (256 ^ w : Nat) := by
      rcases hpow with hp | hp
      · omega
      · subst hp; simp at h1 h2; omega
    rw [natFromLE_natToLE]
    · simp only [natToLE_length]
      have htn : ((x + (256 ^ w : Nat)).toNat : Int) = x + (256 ^ w : Nat) :=
        Int.toNat_of_nonneg hge
      rcases hpow with hp | hp
      · have : ¬ ((x + (256 ^ w : Nat)).toNat < 256 ^ w / 2) := by omega
        split
        · omega
        · omega
      · subst hp; simp at h1 h2; omega
    · rcases hpow with hp | hp
      · omega
      · subst hp; simp at h1 h2; omega

namespace Haystack

/-! ## Metadata values and KV pairs (src/structures/filters.rs) -/

/-- KVValue from filters.rs. Float carries the integer stand-in of the
f32 value. -/
inductive KVValue where
  | String : ByteStr → KVValue
  | Integer : Int → KVValue
  | Float : Int → KVValue
deriving DecidableEq, Repr

/-- KVPair from filters.rs. -/
structure KVPair where
  key : ByteStr
  value : KVValue
deriving DecidableEq, Repr

/-- NodeMetadata from src/structures/ann_tree/metadata.rs: the per-key
aggregate of one summary entry. The string set is a duplicate-free list. -/
structure NodeMetadata where
  values : List ByteStr
  int_range : Option (Int × Int)
  float_range : Option (Int × Int)
deriving DecidableEq, Repr

/-- NodeMetadata::new. -/
def NodeMetadata.new : NodeMetadata :=
  { values := [], int_range := none, float_range := none }

/-- Set insert on the duplicate-free list modelling HashSet. -/
def setInsert (s : List ByteStr) (v : ByteStr) : List ByteStr :=
  if v ∈ s then s else s ++ [v]

/-- NodeMetadataIndex from metadata.rs: the AHashMap is modelled as an
association list iterated in insertion order. -/
structure NodeMetadataIndex where
  data : List (ByteStr × NodeMetadata)
deriving DecidableEq, Repr

/-- NodeMetadataIndex::new. -/
def NodeMetadataIndex.new : NodeMetadataIndex := { data := [] }

/-- NodeMetadataIndex::get. -/
def NodeMetadataIndex.get (m : NodeMetadataIndex) (key : ByteStr) :
    Option NodeMetadata :=
  (m.data.find? (fun p => p.1 = key)).map (·.2)

/-- Map insert replacing in place, as AHashMap::insert. -/
def NodeMetadataIndex.insert (m : NodeMetadataIndex) (key : ByteStr)
    (nm : NodeMetadata) : NodeMetadataIndex :=
  if (m.data.find? (fun p => p.1 = key)).isSome then
    { data := m.data.map (fun p => if p.1 = key then (key, nm) else p) }
  else
    { data := m.data ++ [(key, nm)] }

/-- NodeMetadataIndex::get_all_values: iteration in insertion order. -/
def NodeMetadataIndex.get_all_values (m : NodeMetadataIndex) :
    List (ByteStr × NodeMetadata) :=
  m.data

/-- NodeMetadataIndex::insert_kv_pair from metadata.rs. The source calls
Option::unwrap on the stored int_range / float_range when the key is
already present; a none result models that panic. -/
def NodeMetadataIndex.insert_kv_pair (m : NodeMetadataIndex) (kv_pair : KVPair) :
    Option NodeMetadataIndex :=
  match kv_pair.value with
  | KVValue.String val =>
      match m.get kv_pair.key with
      | some result =>
          some (m.insert kv_pair.key { result with values := setInsert result.values val })
      | none =>
          some (m.insert kv_pair.key
            { values := setInsert [] val, int_range := none, float_range := none })
  | KVValue.Integer val =>
      match m.get kv_pair.key with
      | some result =>
          match result.int_range with
          | some (current_min, current_max) =>
              some (m.insert kv_pair.key
                { result with int_range := some (min current_min val, max current_max val) })
          | none => none
      | none =>
          some (m.insert kv_pair.key
            { values := [], int_range := some (val, val), float_range := none })
  | KVValue.Float val =>
      match m.get kv_pair.key with
      | some result =>
          match result.float_range with
          | some (current_min, current_max) =>
              some (m.insert kv_pair.key
                { result with float_range := some (min current_min val, max current_max val) })
          | none => none
      | none =>
          some (m.insert kv_pair.key
            { values := [], int_range := none, float_range := some (val, val) })

/-! ## Filters and pruning (src/structures/filters.rs) -/

/-- Filter from filters.rs. Gt / Gte / Lt / Lte carry the integer stand-in
of the f64 threshold. -/
inductive Filter where
  | And : List Filter → Filter
  | Or : List Filter → Filter
  | In : ByteStr → List ByteStr → Filter
  | Eq : ByteStr → ByteStr → Filter
  | Gt : ByteStr → Int → Filter
  | Gte : ByteStr → Int → Filter
  | Lt : ByteStr → Int → Filter
  | Lte : ByteStr → Int → Filter

mutual

/-- Filters::should_prune from filters.rs, lines 308-365. The f64 to f32
and f64 to i64 casts of the threshold are identities on the integer
stand-ins. -/
def Filters.should_prune (filter : Filter) (node_metadata : NodeMetadataIndex) :
    Bool :=
  match filter with
  | Filter.And filters => Filters.should_prune_all filters node_metadata
  | Filter.Or filters => Filters.should_prune_any filters node_metadata
  | Filter.In key values =>
      match node_metadata.get key with
      | some node_values => ! values.any (fun v => node_values.values.contains v)
      | none => true
  | Filter.Eq key value =>
      match node_metadata.get key with
      | some node_values => ! node_values.values.contains value
      | none => true
  | Filter.Gt key value =>
      match node_metadata.get key with
      | some node_values =>
          match node_values.float_range with
          | some (mn, _) => decide (mn > value)
          | none =>
              match node_values.int_range with
              | some (mn, _) => decide (mn > value)
              | none => true
      | none => true
  | Filter.Gte key value =>
      match node_metadata.get key with
      | some node_values =>
          match node_values.float_range with
          | some (mn, _) => decide (mn ≥ value)
          | none =>
              match node_values.int_range with
              | some (mn, _) => decide (mn ≥ value)
              | none => true
      | none => true
  | Filter.Lt key value =>
      match node_metadata.get key with
      | some node_values =>
          match node_values.float_range with
          | some (_, mx) => decide (mx < value)
          | none =>
              match node_values.int_range with
              | some (_, mx) => decide (mx < value)
              | none => true
      | none => true
  | Filter.Lte key value =>
      match node_metadata.get key with
      | some node_values =>
          match node_values.float_range with
          | some (_, mx) => decide (mx ≤ value)
          | none =>
              match node_values.int_range with
              | some (_, mx) => decide (mx ≤ value)
              | none => true
      | none => true

/-- The par_iter().all over the conjuncts of an And filter. -/
def Filters.should_prune_all (filters : List Filter) (m : NodeMetadataIndex) :
    Bool :=
  match filters with
  | [] => true
  | f :: fs => Filters.should_prune f m && Filters.should_prune_all fs m

/-- The par_iter().any over the disjuncts of an Or filter. -/
def Filters.should_prune_any (filters : List Filter) (m : NodeMetadataIndex) :
    Bool :=
  match filters with
  | [] => false
  | f :: fs => Filters.should_prune f m || Filters.should_prune_any fs m

end

/-- The fold inside Filters::should_prune_metadata and
calc_metadata_index_for_metadata that aggregates one KV list into a
single-record NodeMetadataIndex. Unlike insert_kv_pair this handles a
missing range with a fresh (v, v) range, so it never panics. -/
def foldKVIntoIndex (acc : NodeMetadataIndex) (kv : KVPair) : NodeMetadataIndex :=
  match acc.get kv.key with
  | some node_values =>
      match kv.value with
      | KVValue.String v =>
          acc.insert kv.key { node_values with values := setInsert node_values.values v }
      | KVValue.Float v =>
          let float_range :=
            match node_values.float_range with
            | some (mn, mx) => some (min mn v, max mx v)
            | none => some (v, v)
          acc.insert kv.key { node_values with float_range := float_range }
      | KVValue.Integer v =>
          let int_range :=
            match node_values.int_range with
            | some (mn, mx) => some (min mn v, max mx v)
            | none => some (v, v)
          acc.insert kv.key { node_values with int_range := int_range }
  | none =>
      let node_values : NodeMetadata :=
        match kv.value with
        | KVValue.String v =>
            { values := setInsert [] v, int_range := none, float_range := none }
        | KVValue.Float v =>
            { values := [], int_range := none, float_range := some (v, v) }
        | KVValue.Integer v =>
            { values := [], int_range := some (v, v), float_range := none }
      acc.insert kv.key node_values

/-- Filters::should_prune_metadata from filters.rs, lines 367-424. -/
def Filters.should_prune_metadata (filter : Filter) (metadata : List KVPair) :
    Bool :=
  Filters.should_prune filter (metadata.foldl foldKVIntoIndex NodeMetadataIndex.new)

/-- combine_filters from filters.rs, lines 427-477. -/
def combine_filters (filters : List NodeMetadataIndex) : NodeMetadataIndex :=
  filters.foldl
    (fun result filter =>
      filter.get_all_values.foldl
        (fun result kv =>
          let key := kv.1
          let values := kv.2
          match result.get key with
          | some node_values =>
              let merged : NodeMetadata :=
                { values := values.values.foldl setInsert node_values.values
                  float_range :=
                    match node_values.float_range, values.float_range with
                    | some (min1, max1), some (min2, max2) =>
                        some (min min1 min2, max max1 max2)
                    | some (min1, max1), none => some (min1, max1)
                    | none, some (min2, max2) => some (min2, max2)
                    | none, none => none
                  int_range :=
                    match node_values.int_range, values.int_range with
                    | some (min1, max1), some (min2, max2) =>
                        some (min min1 min2, max max1 max2)
                    | some (min1, max1), none => some (min1, max1)
                    | none, some (min2, max2) => some (min2, max2)
                    | none, none => none }
              result.insert key merged
          | none =>
              let fresh : NodeMetadata :=
                { values := values.values.foldl setInsert []
                  float_range := values.float_range
                  int_range := values.int_range }
              result.insert key fresh)
        result)
    NodeMetadataIndex.new

/-- calc_metadata_index_for_metadata from filters.rs, lines 479-590:
aggregate each KV list, then combine the per-record summaries. -/
def calc_metadata_index_for_metadata (kvs : List (List KVPair)) : NodeMetadataIndex :=
  combine_filters (kvs.map (fun metadata => metadata.foldl foldKVIntoIndex NodeMetadataIndex.new))

mutual

/-- Modelled from the spec: the match relation of section 4.4 is only a
comment in filters.rs (Filters::matches is commented out), so it is taken
from the specification text: And / Or with the usual semantics, In and Eq
on string values for the key, numeric comparisons against Integer or
Float values for the key, and a missing key makes the leaf predicate
false. -/
def matchesFilter (filter : Filter) (kvs : List KVPair) : Bool :=
  match filter with
  | Filter.And filters => matchesAll filters kvs
  | Filter.Or filters => matchesAny filters kvs
  | Filter.In key values =>
      kvs.any (fun p =>
        decide (p.key = key) && match p.value with
          | KVValue.String s => decide (s ∈ values)
          | _ => false)
  | Filter.Eq key value =>
      kvs.any (fun p => decide (p.key = key) && decide (p.value = KVValue.String value))
  | Filter.Gt key value =>
      kvs.any (fun p =>
        decide (p.key = key) && match p.value with
          | KVValue.Integer i => decide (value < i)
          | KVValue.Float f => decide (value < f)
          | _ => false)
  | Filter.Gte key value =>
      kvs.any (fun p =>
        decide (p.key = key) && match p.value with
          | KVValue.Integer i => decide (value ≤ i)
          | KVValue.Float f => decide (value ≤ f)
          | _ => false)
  | Filter.Lt key value =>
      kvs.any (fun p =>
        decide (p.key = key) && match p.value with
          | KVValue.Integer i => decide (i < value)
          | KVValue.Float f => decide (f < value)
          | _ => false)
  | Filter.Lte key value =>
      kvs.any (fun p =>
        decide (p.key = key) && match p.value with
          | KVValue.Integer i => decide (i ≤ value)
          | KVValue.Float f => decide (f ≤ value)
          | _ => false)

/-- Conjunction of matches over a filter list. -/
def matchesAll (filters : List Filter) (kvs : List KVPair) : Bool :=
  match filters with
  | [] => true
  | f :: fs => matchesFilter f kvs && matchesAll fs kvs

/-- Disjunction of matches over a filter list. -/
def matchesAny (filters : List Filter) (kvs : List KVPair) : Bool :=
  match filters with
  | [] => false
  | f :: fs => matchesFilter f kvs || matchesAny fs kvs

end

/-! ## Quantizer (src/utils/quantization.rs) and modes (src/structures/ann_tree/k_modes.rs) -/

/-- quantize from quantization.rs. QUANTIZED_VECTOR_SIZE comes from the
constants module, which is not among the sources, so the byte width B is
a parameter; VECTOR_SIZE is 8 * B. The f32 components are integer
stand-ins and the comparison against 0.0 is the comparison against 0.
The source accumulates result[i] across the inner loop over j; the outer
loop touches each byte exactly once, so it is written as a map. -/
def quantize (B : Nat) (vec : List Int) : List Nat :=
  (List.range B).map (fun i =>
    (List.range 8).foldl
      (fun acc j => acc ||| ((if vec.getD (i * 8 + j) 0 ≥ 0 then 1 else 0) <<< j))
      0)

/-- The count_ones of find_modes: how many vectors have bit (i mod 8) of
byte (i div 8) set, tested as in the source with a mask. -/
def countOnesAt (vectors : List (List Nat)) (i : Nat) : Nat :=
  (vectors.filter (fun v => (v.getD (i / 8) 0) &&& (1 <<< (i % 8)) ≠ 0)).length

/-- find_modes from k_modes.rs: one pass over all B * 8 bit positions,
setting bit (i mod 8) of byte (i div 8) when the ones are a strict
majority. -/
def find_modes (B : Nat) (vectors : List (List Nat)) : List Nat :=
  (List.range (B * 8)).foldl
    (fun modes i =>
      if countOnesAt vectors i * 2 > vectors.length then
        modes.set (i / 8) ((modes.getD (i / 8) 0) ||| (1 <<< (i % 8)))
      else modes)
    (List.replicate B 0)

theorem getD_map_range {α : Type} (B j : Nat) (d : α) (f : Nat → α) (h : j < B) :
    ((List.range B).map f).getD j d = f j := by
  rw [List.getD_eq_getElem?_getD, List.getElem?_map, List.getElem?_range h]
  rfl

theorem testBit_orFold (g : Nat → Nat) (hg : ∀ j, g j ≤ 1) :
    ∀ (js : List Nat) (acc i : Nat),
      Nat.testBit (js.foldl (fun a j => a ||| (g j <<< j)) acc) i =
        (Nat.testBit acc i || js.any (fun j => decide (j = i) && decide (g j = 1))) := by
  intro js
  induction js with
  | nil => simp
  | cons j js ih =>
      intro acc i
      simp only [List.foldl_cons, List.any_cons]
      rw [ih]
      have hbit : Nat.testBit (g j <<< j) i = (decide (j = i) && decide (g j = 1)) := by
        rw [Nat.testBit_shiftLeft]
        rcases Nat.lt_or_ge (g j) 1 with h1 | h1
        · have h0 : g j = 0 := by omega
          simp [h0]
        · have h1 : g j = 1 := by have := hg j; omega
          rw [h1]
          rcases Nat.decEq j i with he | he
          · have : ¬ i ≥ j ∨ (i ≥ j ∧ i - j ≠ 0) := by omega
            rcases this with hlt | ⟨hge, hne⟩
            · simp [hlt, he]
            · have : Nat.testBit 1 (i - j) = false := by
                have : (1:Nat) = 2 ^ 0 := rfl
                rw [this, Nat.testBit_two_pow]
                simp [Ne.symm hne]
              simp [hge, this, he]
          · subst he
            simp
      rw [Nat.testBit_or, hbit]
      cases Nat.testBit acc i <;> cases decide (j = i) && decide (g j = 1) <;> simp

/-- C7: quantize packs D = 8 * B sign bits: bit i of byte j of the output
is set exactly when component 8 * j + i of the input is at least zero.
Bytes beyond B do not exist (the output has length B). -/
theorem c7_quantize_sign_bits (B : Nat) (vec : List Int) (j i : Nat)
    (hj : j < B) (hi : i < 8) (hlen : vec.length = 8 * B) :
    (quantize B vec).length = B ∧
    Nat.testBit ((quantize B vec).getD j 0) i =
      decide (vec.getD (8 * j + i) 0 ≥ 0) := by
  constructor
  · simp [quantize]
  · unfold quantize
    rw [getD_map_range B j 0 _ hj]
    set g : Nat → Nat := fun k => if vec.getD (j * 8 + k) 0 ≥ 0 then 1 else 0 with hgdef
    have hg : ∀ k, g k ≤ 1 := by
      intro k
      simp only [hgdef]
      split <;> omega
    rw [testBit_orFold g hg (List.range 8) 0 i]
    rw [Nat.zero_testBit]
    have hmem : (List.range 8).any (fun k => decide (k = i) && decide (g k = 1)) =
        decide (g i = 1) := by
      rcases h : decide (g i = 1) with hfalse | htrue
      · rw [List.any_eq_false]
        intro k hk
        rcases Nat.decEq k i with he | he
        · simp [he, h]
        · subst he; simp [h]
      · rw [List.any_eq_true]
        exact ⟨i, List.mem_range.mpr hi, by simp [h]⟩
    rw [hmem]
    have hiff : (g i = 1) ↔ (vec.getD (8 * j + i) 0 ≥ 0) := by
      simp only [hgdef]
      rw [Nat.mul_comm j 8]
      by_cases hx : vec.getD (8 * j + i) 0 ≥ 0
      · rw [if_pos hx]
        exact iff_of_true rfl hx
      · rw [if_neg hx]
        exact iff_of_false (by omega) hx
    rw [Bool.false_or]
    exact decide_eq_decide.mpr hiff

/-- C7 witness at B = 1, vec = [1, -2, 3, -4, 5, -6, 7, -8], j = 0, i = 1:
component 8 * 0 + 1 = -2 is negative, so bit 1 of byte 0 is clear. -/
theorem c7_quantize_sign_bits_witness :
    (0 < 1 ∧ 1 < 8 ∧ ([1, -2, 3, -4, 5, -6, 7, -8] : List Int).length = 8 * 1) ∧
    ((quantize 1 [1, -2, 3, -4, 5, -6, 7, -8]).length = 1 ∧
     Nat.testBit ((quantize 1 [1, -2, 3, -4, 5, -6, 7, -8]).getD 0 0) 1 =
       decide (([1, -2, 3, -4, 5, -6, 7, -8] : List Int).getD (8 * 0 + 1) 0 ≥ 0)) :=
  ⟨⟨Nat.zero_lt_one, by omega, by decide⟩,
   c7_quantize_sign_bits 1 [1, -2, 3, -4, 5, -6, 7, -8] 0 1
     Nat.zero_lt_one (by omega) (by decide)⟩

theorem find_modes_loop (vectors : List (List Nat)) (ps : List Nat) :
    ∀ (modes : List Nat) (j b : Nat), b < 8 → j < modes.length →
      Nat.testBit ((ps.foldl (fun modes i =>
          if countOnesAt vectors i * 2 > vectors.length then
            modes.set (i / 8) ((modes.getD (i / 8) 0) ||| (1 <<< (i % 8)))
          else modes) modes).getD j 0) b =
        (Nat.testBit (modes.getD j 0) b ||
         ps.any (fun i => decide (i / 8 = j) && decide (i % 8 = b) &&
                          decide (countOnesAt vectors i * 2 > vectors.length))) := by
  induction ps with
  | nil => intro modes j b _ _; simp
  | cons i ps ih =>
      intro modes j b hb hj
      simp only [List.foldl_cons, List.any_cons]
      by_cases hc : countOnesAt vectors i * 2 > vectors.length
      · rw [if_pos hc]
        rw [ih _ j b hb (by rw [List.length_set]; exact hj)]
        by_cases hij : i / 8 = j
        · have hset :
              ((modes.set (i / 8) ((modes.getD (i / 8) 0) ||| (1 <<< (i % 8)))).getD j 0) =
                (modes.getD (i / 8) 0) ||| (1 <<< (i % 8)) := by
            rw [List.getD_eq_getElem?_getD, hij, List.getElem?_set_self hj]
            rfl
          rw [hset, Nat.testBit_or]
          have hb1 : Nat.testBit (1 <<< (i % 8)) b = decide (i % 8 = b) := by
            rw [Nat.shiftLeft_eq, Nat.one_mul, Nat.testBit_two_pow]
          rw [hb1, ← hij]
          simp only [decide_eq_true_eq, hc, decide_True, Bool.and_true, decide_true_eq_true]
          cases Nat.testBit (modes.getD (i / 8) 0) b <;>
        cases h2 : decide (i % 8 = b) <;> simp [h2]
        · have hset :
              ((modes.set (i / 8) ((modes.getD (i / 8) 0) ||| (1 <<< (i % 8)))).getD j 0) =
                modes.getD j 0 := by
            rw [List.getD_eq_getElem?_getD, List.getElem?_set_ne hij,
              ← List.getD_eq_getElem?_getD]
          rw [hset]
          simp [hij]
      · rw [if_neg hc]
        rw [ih _ j b hb hj]
        simp [hc]

/-- C8: find_modes is the bitwise strict majority: bit b of byte j of the
output is set exactly when strictly more than half of the input vectors
have that bit set; an exact half yields an unset bit because the
comparison in the source is strict. -/
theorem c8_find_modes_strict_majority (B : Nat) (vectors : List (List Nat))
    (j b : Nat) (hne : vectors ≠ []) (hj : j < B) (hb : b < 8) :
    Nat.testBit ((find_modes B vectors).getD j 0) b =
      decide (2 * (vectors.filter (fun v => Nat.testBit (v.getD j 0) b)).length >
        vectors.length) := by
  unfold find_modes
  rw [find_modes_loop vectors (List.range (B * 8)) (List.replicate B 0) j b hb
    (by simpa using hj)]
  have h0 : (List.replicate B 0).getD j 0 = 0 := by
    rw [List.getD_eq_getElem?_getD, List.getElem?_replicate]
    simp [hj]
  rw [h0, Nat.zero_testBit, Bool.false_or]
  have hcount : countOnesAt vectors (8 * j + b) =
      (vectors.filter (fun v => Nat.testBit (v.getD j 0) b)).length := by
    unfold countOnesAt
    congr 1
    apply List.filter_congr
    intro v _
    have hdiv : (8 * j + b) / 8 = j := by omega
    have hmod : (8 * j + b) % 8 = b := by omega
    rw [hdiv, hmod, Nat.shiftLeft_eq, Nat.one_mul, Nat.and_two_pow]
    cases h : Nat.testBit (v.getD j 0) b
    · simp [h]
    · have hpos : (2:Nat) ^ b ≠ 0 := by positivity
      simp [h, hpos]
  have hany : (List.range (B * 8)).any
      (fun i => decide (i / 8 = j) && decide (i % 8 = b) &&
        decide (countOnesAt vectors i * 2 > vectors.length)) =
      decide (countOnesAt vectors (8 * j + b) * 2 > vectors.length) := by
    cases h : decide (countOnesAt vectors (8 * j + b) * 2 > vectors.length)
    · rw [List.any_eq_false]
      intro i _
      by_cases h1 : i / 8 = j
      · by_cases h2 : i % 8 = b
        · have hieq : i = 8 * j + b := by omega
          rw [hieq, h]
          simp
        · simp [h2]
      · simp [h1]
    · rw [List.any_eq_true]
      refine ⟨8 * j + b, List.mem_range.mpr (by omega), ?_⟩
      have hdiv : (8 * j + b) / 8 = j := by omega
      have hmod : (8 * j + b) % 8 = b := by omega
      simp [hdiv, hmod, h]
  rw [hany, hcount]
  apply decide_eq_decide.mpr
  omega

/-- C8 witness: vectors [1, 1, 0, 3] at B = 1. Bit 0 is set in 3 of 4
elements, a strict majority, so it is set in the mode; bit 1 is set in
exactly half, a tie, so it is unset. -/
theorem c8_find_modes_strict_majority_witness :
    (([[1], [1], [0], [3]] : List (List Nat)) ≠ [] ∧ 0 < 1 ∧ 0 < 8) ∧
    Nat.testBit ((find_modes 1 [[1], [1], [0], [3]]).getD 0 0) 0 =
      decide (2 * ([[1], [1], [0], [3]].filter
        (fun v => Nat.testBit (v.getD 0 0) 0)).length > ([[1], [1], [0], [3]] : List (List Nat)).length) ∧
    Nat.testBit ((find_modes 1 [[1], [1], [0], [3]]).getD 0 0) 1 =
      decide (2 * ([[1], [1], [0], [3]].filter
        (fun v => Nat.testBit (v.getD 0 0) 1)).length > ([[1], [1], [0], [3]] : List (List Nat)).length) :=
  ⟨⟨by decide, Nat.zero_lt_one, by omega⟩,
   c8_find_modes_strict_majority 1 [[1], [1], [0], [3]] 0 0 (by decide)
     Nat.zero_lt_one (by omega),
   c8_find_modes_strict_majority 1 [[1], [1], [0], [3]] 0 1 (by decide)
     Nat.zero_lt_one (by omega)⟩

/-! ## Claim C2 and claim C10 -/

/-- C2: the claim states that pruning is a sound over-approximation of
matching: a record KV list that matches the filter is never pruned, and a
Gt subtree whose numeric range contains a satisfying value is never
pruned. The code violates this: for the record with key k and Float
value 5 and the filter Gt k 3, the record matches, its numeric range
(5, 5) contains the satisfying value 5, yet Filters::should_prune prunes
the summary (it tests min greater than the threshold, which holds exactly
when every value in the subtree satisfies Gt) and
Filters::should_prune_metadata prunes the record itself. -/
theorem c2_prune_unsound_for_gt :
    let kvs : List KVPair := [⟨[107], KVValue.Float 5⟩]
    let f : Filter := Filter.Gt [107] 3
    let summary := kvs.foldl foldKVIntoIndex NodeMetadataIndex.new
    matchesFilter f kvs = true ∧
    summary.get [107] = some { values := [], int_range := none,
                               float_range := some (5, 5) } ∧
    Filters.should_prune f summary = true ∧
    Filters.should_prune_metadata f kvs = true := by
  refine ⟨rfl, rfl, rfl, rfl⟩

/-- C10: the claim states that NodeMetadataIndex::insert_kv_pair is total,
in particular that inserting an Integer value under a key whose existing
entry holds only string values completes and produces a numeric range.
The code instead calls Option::unwrap on the absent int_range and panics;
the model returns none on exactly that panic. -/
theorem c10_insert_kv_pair_panics_on_string_only_key :
    let m : NodeMetadataIndex :=
      { data := [([107], { values := [[97]], int_range := none, float_range := none })] }
    m.insert_kv_pair ⟨[107], KVValue.Integer 5⟩ = none := by
  rfl

/-! ## NodeMetadataIndex tree serialization (src/structures/ann_tree/node.rs, lines 111-209) -/

/-- serialize_length from node.rs: a u32 little-endian length prefix
(the usize is cast to u32). -/
def serialize_length (n : Nat) : List Nat := natToLE 4 n

/-- read_length from node.rs. -/
def read_length (bs : List Nat) : Nat := natFromLE bs

/-- The bytes of one key / NodeMetadata entry as written by the
TreeSerialization impl for NodeMetadataIndex: length-prefixed key,
length-prefixed string values, then the int range as two i64 (zeros when
absent) and the float range as two f32 (zeros when absent). -/
def entryBytes (p : ByteStr × NodeMetadata) : List Nat :=
  serialize_length p.1.length ++ p.1 ++
  serialize_length p.2.values.length ++
  (p.2.values.map (fun v => serialize_length v.length ++ v)).flatten ++
  (match p.2.int_range with
   | none => intToLE 8 0 ++ intToLE 8 0
   | some (mn, mx) => intToLE 8 mn ++ intToLE 8 mx) ++
  (match p.2.float_range with
   | none => intToLE 4 0 ++ intToLE 4 0
   | some (mn, mx) => intToLE 4 mn ++ intToLE 4 mx)

/-- TreeSerialization::serialize for NodeMetadataIndex. -/
def NodeMetadataIndex.serializeTree (m : NodeMetadataIndex) : List Nat :=
  serialize_length m.data.length ++ (m.get_all_values.map entryBytes).flatten

/-- The loop of TreeDeserialization reading values_len strings into the
value set. Returns the strings in stream order plus the remaining bytes. -/
def readValues : Nat → List Nat → (List ByteStr × List Nat)
  | 0, d => ([], d)
  | n + 1, d =>
      let value_len := read_length (d.take 4)
      let d1 := d.drop 4
      let value := d1.take value_len
      let d2 := d1.drop value_len
      let (vs, rest) := readValues n d2
      (value :: vs, rest)

/-- One iteration of the TreeDeserialization loop for NodeMetadataIndex:
reads a key, the value set, and both ranges, which are always rebuilt as
Some. -/
def readEntry (d : List Nat) : ((ByteStr × NodeMetadata) × List Nat) :=
  let key_len := read_length (d.take 4)
  let d1 := d.drop 4
  let key := d1.take key_len
  let d2 := d1.drop key_len
  let values_len := read_length (d2.take 4)
  let d3 := d2.drop 4
  let (values, d4) := readValues values_len d3
  let min_int := intFromLE (d4.take 8)
  let d5 := d4.drop 8
  let max_int := intFromLE (d5.take 8)
  let d6 := d5.drop 8
  let min_float := intFromLE (d6.take 4)
  let d7 := d6.drop 4
  let max_float := intFromLE (d7.take 4)
  let d8 := d7.drop 4
  ((key, { values := values.foldl setInsert []
           int_range := some (min_int, max_int)
           float_range := some (min_float, max_float) }), d8)

/-- The deserialization loop over metadata_len entries, inserting each
into the accumulating index. -/
def readEntries : Nat → List Nat → NodeMetadataIndex → NodeMetadataIndex
  | 0, _, acc => acc
  | n + 1, d, acc =>
      let (kv, rest) := readEntry d
      readEntries n rest (acc.insert kv.1 kv.2)

/-- TreeDeserialization::deserialize for NodeMetadataIndex. -/
def NodeMetadataIndex.deserializeTree (data : List Nat) : NodeMetadataIndex :=
  let metadata_len := read_length (data.take 4)
  readEntries metadata_len (data.drop 4) NodeMetadataIndex.new

/-- Well-formedness of one summary entry for serialization: lengths fit
in the u32 prefixes, the value set is duplicate-free, and the numeric
bounds fit in i64 and in the f32 stand-in range. -/
def entryWF (p : ByteStr × NodeMetadata) : Prop :=
  p.1.length < 2 ^ 32 ∧ p.2.values.length < 2 ^ 32 ∧
  (∀ v ∈ p.2.values, v.length < 2 ^ 32) ∧ p.2.values.Nodup ∧
  (∀ r, p.2.int_range = some r →
    -(256 ^ 8 / 2 : Nat) ≤ r.1 ∧ r.1 < (256 ^ 8 / 2 : Nat) ∧
    -(256 ^ 8 / 2 : Nat) ≤ r.2 ∧ r.2 < (256 ^ 8 / 2 : Nat)) ∧
  (∀ r, p.2.float_range = some r →
    -(256 ^ 4 / 2 : Nat) ≤ r.1 ∧ r.1 < (256 ^ 4 / 2 : Nat) ∧
    -(256 ^ 4 / 2 : Nat) ≤ r.2 ∧ r.2 < (256 ^ 4 / 2 : Nat))

instance (p : ByteStr × NodeMetadata) : Decidable (entryWF p) := by
  unfold entryWF
  infer_instance

/-- Well-formedness of a whole summary for serialization: every entry is
well formed, the keys are distinct, and the entry count fits in u32. -/
def NodeMetadataIndex.serWF (m : NodeMetadataIndex) : Prop :=
  m.data.length < 2 ^ 32 ∧ (m.data.map (·.1)).Nodup ∧ ∀ p ∈ m.data, entryWF p

instance (m : NodeMetadataIndex) : Decidable (m.serWF) := by
  unfold NodeMetadataIndex.serWF
  infer_instance

/-- The image of one entry under a serialize / deserialize cycle: string
values survive, both ranges come back as Some, with (0, 0) standing in
for an absent range. -/
def entryRoundTrip (p : ByteStr × NodeMetadata) : ByteStr × NodeMetadata :=
  (p.1, { values := p.2.values
          int_range := some (p.2.int_range.getD (0, 0))
          float_range := some (p.2.float_range.getD (0, 0)) })

theorem read_length_append (n : Nat) (r : List Nat) (h : n < 2 ^ 32) :
    read_length ((serialize_length n ++ r).take 4) = n ∧
    (serialize_length n ++ r).drop 4 = r := by
  have hlen : (serialize_length n).length = 4 := by simp [serialize_length]
  constructor
  · have : (serialize_length n ++ r).take 4 = serialize_length n := by
      rw [← hlen, List.take_left]
    rw [this]
    exact natFromLE_natToLE 4 n (by norm_num at h ⊢; omega)
  · rw [← hlen, List.drop_left]

theorem take_drop_append (a r : List Nat) :
    (a ++ r).take a.length = a ∧ (a ++ r).drop a.length = r :=
  ⟨List.take_left a r, List.drop_left a r⟩

theorem readValues_append (vs : List ByteStr) (r : List Nat)
    (h : ∀ v ∈ vs, v.length < 2 ^ 32) :
    readValues vs.length ((vs.map (fun v => serialize_length v.length ++ v)).flatten ++ r) =
      (vs, r) := by
  induction vs with
  | nil => simp [readValues]
  | cons v vs ih =>
      simp only [List.map_cons, List.flatten_cons, List.length_cons]
      rw [readValues]
      have hv : v.length < 2 ^ 32 := h v (List.mem_cons_self v vs)
      rw [List.append_assoc, List.append_assoc]
      obtain ⟨h1, h2⟩ := read_length_append v.length
        (v ++ ((vs.map (fun v => serialize_length v.length ++ v)).flatten ++ r)) hv
      rw [h1, h2]
      obtain ⟨h3, h4⟩ := take_drop_append v
        ((vs.map (fun v => serialize_length v.length ++ v)).flatten ++ r)
      rw [h3, h4]
      rw [ih (fun u hu => h u (List.mem_cons_of_mem v hu))]

theorem setInsert_foldl_nodup (vs : List ByteStr) (h : vs.Nodup) :
    vs.foldl setInsert [] = vs := by
  suffices hgen : ∀ acc : List ByteStr, acc.Nodup → (∀ v ∈ vs, v ∉ acc) →
      vs.foldl setInsert acc = acc ++ vs by
    simpa using hgen [] List.nodup_nil (by simp)
  induction vs with
  | nil => intro acc _ _; simp
  | cons v vs ih =>
      intro acc hacc hdis
      simp only [List.foldl_cons]
      have hv : v ∉ acc := hdis v (List.mem_cons_self v vs)
      have hstep : setInsert acc v = acc ++ [v] := by simp [setInsert, hv]
      rw [hstep]
      have hnodup : (acc ++ [v]).Nodup := by
        simp [List.nodup_append, hacc, hv]
      have hvs : vs.Nodup := (List.nodup_cons.mp h).2
      have hnotin : v ∉ vs := (List.nodup_cons.mp h).1
      rw [ih hvs (acc ++ [v]) hnodup (by
        intro u hu
        simp only [List.mem_append, List.mem_singleton]
        push_neg
        exact ⟨hdis u (List.mem_cons_of_mem v hu), fun he => hnotin (he ▸ hu)⟩)]
      simp

theorem take_drop_append_len (a r : List Nat) (k : Nat) (hk : a.length = k) :
    (a ++ r).take k = a ∧ (a ++ r).drop k = r := by
  rw [← hk]
  exact ⟨List.take_left a r, List.drop_left a r⟩

theorem readEntry_append (p : ByteStr × NodeMetadata) (r : List Nat)
    (h : entryWF p) :
    readEntry (entryBytes p ++ r) = (entryRoundTrip p, r) := by
  obtain ⟨hkey, hvlen, hvals, hnodup, hint, hfloat⟩ := h
  unfold readEntry entryBytes
  simp only [List.append_assoc]
  obtain ⟨h1, h2⟩ := read_length_append p.1.length _ hkey
  rw [h1, h2]
  obtain ⟨h3, h4⟩ := take_drop_append p.1 _
  rw [h3, h4]
  obtain ⟨h5, h6⟩ := read_length_append p.2.values.length _ hvlen
  rw [h5, h6]
  rw [readValues_append p.2.values _ hvals]
  rw [setInsert_foldl_nodup p.2.values hnodup]
  rcases hir : p.2.int_range with _ | ⟨mn, mx⟩ <;>
    rcases hfr : p.2.float_range with _ | ⟨fmn, fmx⟩ <;>
    simp only [List.append_assoc]
  · obtain ⟨t1, e1⟩ := take_drop_append_len (intToLE 8 0) _ 8 (intToLE_length 8 0)
    rw [t1, e1]
    obtain ⟨t2, e2⟩ := take_drop_append_len (intToLE 8 0) _ 8 (intToLE_length 8 0)
    rw [t2, e2]
    obtain ⟨t3, e3⟩ := take_drop_append_len (intToLE 4 0) _ 4 (intToLE_length 4 0)
    rw [t3, e3]
    obtain ⟨t4, e4⟩ := take_drop_append_len (intToLE 4 0) _ 4 (intToLE_length 4 0)
    rw [t4, e4]
    rw [intFromLE_intToLE 8 0 (by norm_num) (by norm_num),
        intFromLE_intToLE 4 0 (by norm_num) (by norm_num)]
    simp [entryRoundTrip, hir, hfr]
  · obtain ⟨hf1, hf2, hf3, hf4⟩ := hfloat (fmn, fmx) hfr
    obtain ⟨t1, e1⟩ := take_drop_append_len (intToLE 8 0) _ 8 (intToLE_length 8 0)
    rw [t1, e1]
    obtain ⟨t2, e2⟩ := take_drop_append_len (intToLE 8 0) _ 8 (intToLE_length 8 0)
    rw [t2, e2]
    obtain ⟨t3, e3⟩ := take_drop_append_len (intToLE 4 fmn) _ 4 (intToLE_length 4 fmn)
    rw [t3, e3]
    obtain ⟨t4, e4⟩ := take_drop_append_len (intToLE 4 fmx) _ 4 (intToLE_length 4 fmx)
    rw [t4, e4]
    rw [intFromLE_intToLE 8 0 (by norm_num) (by norm_num),
        intFromLE_intToLE 4 fmn hf1 hf2, intFromLE_intToLE 4 fmx hf3 hf4]
    simp [entryRoundTrip, hir, hfr]
  · obtain ⟨hi1, hi2, hi3, hi4⟩ := hint (mn, mx) hir
    obtain ⟨t1, e1⟩ := take_drop_append_len (intToLE 8 mn) _ 8 (intToLE_length 8 mn)
    rw [t1, e1]
    obtain ⟨t2, e2⟩ := take_drop_append_len (intToLE 8 mx) _ 8 (intToLE_length 8 mx)
    rw [t2, e2]
    obtain ⟨t3, e3⟩ := take_drop_append_len (intToLE 4 0) _ 4 (intToLE_length 4 0)
    rw [t3, e3]
    obtain ⟨t4, e4⟩ := take_drop_append_len (intToLE 4 0) _ 4 (intToLE_length 4 0)
    rw [t4, e4]
    rw [intFromLE_intToLE 8 mn hi1 hi2, intFromLE_intToLE 8 mx hi3 hi4,
        intFromLE_intToLE 4 0 (by norm_num) (by norm_num)]
    simp [entryRoundTrip, hir, hfr]
  · obtain ⟨hi1, hi2, hi3, hi4⟩ := hint (mn, mx) hir
    obtain ⟨hf1, hf2, hf3, hf4⟩ := hfloat (fmn, fmx) hfr
    obtain ⟨t1, e1⟩ := take_drop_append_len (intToLE 8 mn) _ 8 (intToLE_length 8 mn)
    rw [t1, e1]
    obtain ⟨t2, e2⟩ := take_drop_append_len (intToLE 8 mx) _ 8 (intToLE_length 8 mx)
    rw [t2, e2]
    obtain ⟨t3, e3⟩ := take_drop_append_len (intToLE 4 fmn) _ 4 (intToLE_length 4 fmn)
    rw [t3, e3]
    obtain ⟨t4, e4⟩ := take_drop_append_len (intToLE 4 fmx) _ 4 (intToLE_length 4 fmx)
    rw [t4, e4]
    rw [intFromLE_intToLE 8 mn hi1 hi2, intFromLE_intToLE 8 mx hi3 hi4,
        intFromLE_intToLE 4 fmn hf1 hf2, intFromLE_intToLE 4 fmx hf3 hf4]
    simp [entryRoundTrip, hir, hfr]

theorem find_isSome_iff_key_mem (data : List (ByteStr × NodeMetadata)) (k : ByteStr) :
    (data.find? (fun p => p.1 = k)).isSome ↔ k ∈ data.map (fun p => p.1) := by
  rw [List.find?_isSome]
  constructor
  · rintro ⟨p, hp, hk⟩
    simp only [decide_eq_true_eq] at hk
    exact List.mem_map.mpr ⟨p, hp, hk⟩
  · intro hk
    obtain ⟨p, hp, hk⟩ := List.mem_map.mp hk
    exact ⟨p, hp, by simp [hk]⟩

theorem insert_fresh_key (acc : NodeMetadataIndex) (k : ByteStr) (nm : NodeMetadata)
    (h : k ∉ acc.data.map (fun p => p.1)) :
    acc.insert k nm = { data := acc.data ++ [(k, nm)] } := by
  unfold NodeMetadataIndex.insert
  rw [if_neg]
  intro hs
  exact h ((find_isSome_iff_key_mem acc.data k).mp hs)

theorem readEntries_append (entries : List (ByteStr × NodeMetadata)) :
    ∀ (r : List Nat) (acc : NodeMetadataIndex),
      (∀ p ∈ entries, entryWF p) →
      ((entries.map (fun p => p.1)).Nodup) →
      (∀ p ∈ entries, p.1 ∉ acc.data.map (fun q => q.1)) →
      readEntries entries.length ((entries.map entryBytes).flatten ++ r) acc =
        { data := acc.data ++ entries.map entryRoundTrip } := by
  induction entries with
  | nil => intro r acc _ _ _; simp [readEntries]
  | cons p entries ih =>
      intro r acc hwf hnodup hdisj
      simp only [List.map_cons, List.flatten_cons, List.length_cons, List.append_assoc]
      rw [readEntries]
      rw [readEntry_append p _ (hwf p (List.mem_cons_self p entries))]
      dsimp only
      have hfresh : p.1 ∉ acc.data.map (fun q => q.1) :=
        hdisj p (List.mem_cons_self p entries)
      have hkeyrt : (entryRoundTrip p).1 = p.1 := rfl
      rw [hkeyrt, insert_fresh_key acc p.1 _ hfresh]
      have hwf2 : ∀ q ∈ entries, entryWF q :=
        fun q hq => hwf q (List.mem_cons_of_mem p hq)
      have hnodup2 : ((entries.map (fun q => q.1)).Nodup) :=
        (List.nodup_cons.mp hnodup).2
      have hhead : p.1 ∉ entries.map (fun q => q.1) := (List.nodup_cons.mp hnodup).1
      have hdisj2 : ∀ q ∈ entries,
          q.1 ∉ (acc.data ++ [(p.1, (entryRoundTrip p).2)]).map (fun s => s.1) := by
        intro q hq hin
        simp only [List.map_append, List.mem_append, List.map_cons, List.map_nil,
          List.mem_cons, List.not_mem_nil, or_false] at hin
        rcases hin with hin | hin
        · exact hdisj q (List.mem_cons_of_mem p hq) hin
        · exact hhead (hin ▸ List.mem_map.mpr ⟨q, hq, rfl⟩)
      have := ih r { data := acc.data ++ [(p.1, (entryRoundTrip p).2)] } hwf2 hnodup2 hdisj2
      rw [this]
      simp [entryRoundTrip]

/-- C9 counterexample: the one-key summary whose int_range and
float_range are both None does not survive a serialize / deserialize
cycle: both ranges come back as Some (0, 0) (node.rs writes zero bytes
for an absent range, lines 132-148, and deserialization always rebuilds
Some, lines 191-202), and a pruning decision changes: the filter
Gt(k, 1) prunes the original summary but not the reloaded one. -/
theorem c9_round_trip_changes_pruning :
    let m : NodeMetadataIndex :=
      { data := [([107], { values := [[97]], int_range := none, float_range := none })] }
    NodeMetadataIndex.deserializeTree m.serializeTree ≠ m ∧
    (NodeMetadataIndex.deserializeTree m.serializeTree).get [107] =
      some { values := [[97]], int_range := some (0, 0), float_range := some (0, 0) } ∧
    Filters.should_prune (Filter.Gt [107] 1) m = true ∧
    Filters.should_prune (Filter.Gt [107] 1)
      (NodeMetadataIndex.deserializeTree m.serializeTree) = false := by
  refine ⟨by decide, by decide, by decide, by decide⟩

/-- C9 amended: for every well-formed summary (keys distinct, lengths in
u32 range, numeric bounds in range), deserializing the serialization
yields the summary with every key and string-value set intact and with
each numeric range replaced by Some of its old value when present and by
Some (0, 0) when absent; consequently a summary whose ranges were all
present is preserved exactly, but None ranges are not, and pruning
decisions on reloaded summaries can differ. -/
theorem c9_node_metadata_round_trip_amended (m : NodeMetadataIndex)
    (h : m.serWF) :
    NodeMetadataIndex.deserializeTree m.serializeTree =
      { data := m.data.map entryRoundTrip } := by
  obtain ⟨hlen, hkeys, hwf⟩ := h
  unfold NodeMetadataIndex.deserializeTree NodeMetadataIndex.serializeTree
  simp only [NodeMetadataIndex.get_all_values]
  obtain ⟨h1, h2⟩ := read_length_append m.data.length ((m.data.map entryBytes).flatten) hlen
  rw [h1, h2]
  have := readEntries_append m.data [] NodeMetadataIndex.new hwf hkeys (by
    intro p _
    simp [NodeMetadataIndex.new])
  rw [List.append_nil] at this
  rw [this]
  simp [NodeMetadataIndex.new]

/-- C9 amended witness: the amended theorem applied to the concrete
counterexample summary. -/
theorem c9_node_metadata_round_trip_amended_witness :
    ({ data := [([107], { values := [[97]], int_range := none, float_range := none })] } :
      NodeMetadataIndex).serWF ∧
    NodeMetadataIndex.deserializeTree
      ({ data := [([107], { values := [[97]], int_range := none, float_range := none })] } :
        NodeMetadataIndex).serializeTree =
      { data := [([107], { values := [[97]], int_range := none, float_range := none })].map
          entryRoundTrip } :=
  ⟨by decide, c9_node_metadata_round_trip_amended _ (by decide)⟩

/-! ## Tree node serialization (src/structures/ann_tree/node.rs, lines 20-70 and 358-623) -/

namespace NodeSer

/-- NodeType from node.rs. -/
inductive NodeType where
  | Leaf : NodeType
  | Internal : NodeType
deriving DecidableEq, Repr

/-- serialize_node_type from node.rs. -/
def serialize_node_type : NodeType → Nat
  | NodeType.Leaf => 0
  | NodeType.Internal => 1

/-- deserialize_node_type from node.rs; none models the panic on an
invalid byte. -/
def deserialize_node_type (b : Nat) : Option NodeType :=
  if b = 0 then some NodeType.Leaf
  else if b = 1 then some NodeType.Internal
  else none

/-- LazyValue from node.rs: a block-store offset plus an optional cached
value. -/
structure LazyValue (α : Type) where
  offset : Nat
  value : Option α
deriving DecidableEq, Repr

/-- Node from node.rs, parametric in the byte width B of a quantized
vector (QUANTIZED_VECTOR_SIZE comes from the missing constants module).
A vector is a byte list of length B. -/
structure Node where
  vectors : List ByteStr
  ids : List Nat
  children : List Nat
  metadata : List (LazyValue (List KVPair))
  k : Nat
  node_type : NodeType
  offset : Nat
  is_root : Bool
  parent_offset : Option Nat
  node_metadata : Option (LazyValue NodeMetadataIndex)
deriving DecidableEq, Repr

/-- Node::serialize from node.rs, lines 358-453: kind byte, is_root byte,
parent offset (unwrap_or 0, eight bytes), self offset, then the
length-prefixed vectors, ids, children and per-record metadata offsets,
and finally the node_metadata offset (0 when absent). -/
def Node.serialize (n : Node) : List Nat :=
  [serialize_node_type n.node_type] ++
  [if n.is_root then 1 else 0] ++
  natToLE 8 (n.parent_offset.getD 0) ++
  natToLE 8 n.offset ++
  natToLE 4 n.vectors.length ++ n.vectors.flatten ++
  natToLE 4 n.ids.length ++ (n.ids.map (natToLE 16)).flatten ++
  natToLE 4 n.children.length ++ (n.children.map (natToLE 8)).flatten ++
  natToLE 4 n.metadata.length ++ (n.metadata.map (fun m => natToLE 8 m.offset)).flatten ++
  (match n.node_metadata with
   | some nm => natToLE 8 nm.offset
   | none => natToLE 8 0)

/-- The loop reading count little-endian naturals of width w. -/
def readNatsLE (w : Nat) : Nat → List Nat → (List Nat × List Nat)
  | 0, d => ([], d)
  | count + 1, d =>
      let x := natFromLE (d.take w)
      let d1 := d.drop w
      let (xs, rest) := readNatsLE w count d1
      (x :: xs, rest)

/-- The loop reading count quantized vectors of B bytes each. -/
def readVectors (B : Nat) : Nat → List Nat → (List ByteStr × List Nat)
  | 0, d => ([], d)
  | count + 1, d =>
      let v := d.take B
      let d1 := d.drop B
      let (vs, rest) := readVectors B count d1
      (v :: vs, rest)

/-- Node::deserialize from node.rs, lines 455-623, parametric in B and in
the capacity constant K (the missing constants module). The per-record
metadata and the node_metadata are rebuilt as bare LazyValue references
with no cached value; parent_offset 0 becomes None; none models the
panic of deserialize_node_type. -/
def Node.deserialize (B K : Nat) (data : List Nat) : Option Node :=
  match deserialize_node_type (data.getD 0 0) with
  | none => none
  | some node_type =>
    let is_root := data.getD 1 0 = 1
    let d0 := data.drop 2
    let parent_offset := natFromLE (d0.take 8)
    let d1 := d0.drop 8
    let node_offset := natFromLE (d1.take 8)
    let d2 := d1.drop 8
    let vectors_len := read_length (d2.take 4)
    let d3 := d2.drop 4
    let (vectors, d4) := readVectors B vectors_len d3
    let ids_len := read_length (d4.take 4)
    let d5 := d4.drop 4
    let (ids, d6) := readNatsLE 16 ids_len d5
    let children_len := read_length (d6.take 4)
    let d7 := d6.drop 4
    let (children, d8) := readNatsLE 8 children_len d7
    let metadata_len := read_length (d8.take 4)
    let d9 := d8.drop 4
    let (metadata_offsets, d10) := readNatsLE 8 metadata_len d9
    let node_metadata_offset := natFromLE (d10.take 8)
    some
      { vectors := vectors
        ids := ids
        children := children
        metadata := metadata_offsets.map (fun o => { offset := o, value := none })
        k := K
        node_type := node_type
        offset := node_offset
        is_root := is_root
        parent_offset := if parent_offset ≠ 0 then some parent_offset else none
        node_metadata := some { offset := node_metadata_offset, value := none } }

/-- Serialization well-formedness of a node with respect to the widths B
and K: every field fits the fixed-width encodings and the vectors have
the declared byte width. -/
def Node.serWF (B K : Nat) (n : Node) : Prop :=
  n.k = K ∧
  (∀ v ∈ n.vectors, v.length = B) ∧ n.vectors.length < 2 ^ 32 ∧
  (∀ i ∈ n.ids, i < 2 ^ 128) ∧ n.ids.length < 2 ^ 32 ∧
  (∀ c ∈ n.children, c < 2 ^ 64) ∧ n.children.length < 2 ^ 32 ∧
  (∀ m ∈ n.metadata, m.offset < 2 ^ 64) ∧ n.metadata.length < 2 ^ 32 ∧
  n.offset < 2 ^ 64 ∧ n.parent_offset.getD 0 < 2 ^ 64 ∧
  (∀ nm, n.node_metadata = some nm → nm.offset < 2 ^ 64)

instance (B K : Nat) (n : Node) : Decidable (n.serWF B K) := by
  unfold Node.serWF
  infer_instance

/-- The image of a node under one serialize / deserialize cycle: lazily
cached values are dropped, parent_offset Some 0 collapses to None, and a
missing node_metadata becomes a bare reference to offset 0. -/
def Node.roundTrip (n : Node) : Node :=
  { n with
    metadata := n.metadata.map (fun m => { offset := m.offset, value := none })
    parent_offset :=
      if n.parent_offset.getD 0 ≠ 0 then some (n.parent_offset.getD 0) else none
    node_metadata :=
      some { offset := match n.node_metadata with
                       | some nm => nm.offset
                       | none => 0,
             value := none } }

theorem readNatsLE_append (w : Nat) (xs : List Nat) (r : List Nat)
    (h : ∀ x ∈ xs, x < 256 ^ w) :
    readNatsLE w xs.length ((xs.map (natToLE w)).flatten ++ r) = (xs, r) := by
  induction xs with
  | nil => simp [readNatsLE]
  | cons x xs ih =>
      simp only [List.map_cons, List.flatten_cons, List.length_cons, List.append_assoc]
      rw [readNatsLE]
      obtain ⟨t1, e1⟩ := take_drop_append_len (natToLE w x) _ w (natToLE_length w x)
      rw [t1, e1]
      rw [natFromLE_natToLE w x (h x (List.mem_cons_self x xs))]
      rw [ih (fun y hy => h y (List.mem_cons_of_mem x hy))]

theorem readVectors_append (B : Nat) (vs : List ByteStr) (r : List Nat)
    (h : ∀ v ∈ vs, v.length = B) :
    readVectors B vs.length (vs.flatten ++ r) = (vs, r) := by
  induction vs with
  | nil => simp [readVectors]
  | cons v vs ih =>
      simp only [List.flatten_cons, List.length_cons, List.append_assoc]
      rw [readVectors]
      obtain ⟨t1, e1⟩ := take_drop_append_len v _ B (h v (List.mem_cons_self v vs))
      rw [t1, e1]
      rw [ih (fun u hu => h u (List.mem_cons_of_mem v hu))]

/-- C6 amended: for every node whose fields fit the fixed-width
encodings, deserializing the serialization yields the node with
node_type, is_root, vectors, ids, children and the metadata offsets
intact and with offset restored from the stream, but with every lazily
cached value dropped to a bare reference, with parent_offset Some 0
collapsed to None (0 is the sentinel for no parent), and with a missing
node_metadata rebuilt as Some of a reference to offset 0 instead of
None. In particular the round trip is the identity on nodes whose
parent_offset is not Some 0, whose node_metadata is a present
uncached reference, and whose metadata references carry no cached
values. -/
theorem c6_node_round_trip_amended (B K : Nat) (n : Node) (h : n.serWF B K) :
    Node.deserialize B K n.serialize = some n.roundTrip := by
  obtain ⟨hk, hvecB, hveclen, hids, hidslen, hch, hchlen, hmeta, hmetalen,
    hoff, hpar, hnm⟩ := h
  unfold Node.serialize Node.deserialize
  simp only [List.append_assoc]
  have hhead : ∀ t : List Nat,
      (([serialize_node_type n.node_type] ++ ([if n.is_root then 1 else 0] ++ t)).getD 0 0 =
        serialize_node_type n.node_type) ∧
      (([serialize_node_type n.node_type] ++ ([if n.is_root then 1 else 0] ++ t)).getD 1 0 =
        if n.is_root then 1 else 0) ∧
      (([serialize_node_type n.node_type] ++ ([if n.is_root then 1 else 0] ++ t)).drop 2 = t) := by
    intro t
    refine ⟨rfl, rfl, rfl⟩
  obtain ⟨hg0, hg1, hdrop2⟩ := hhead _
  rw [hg0, hg1, hdrop2]
  have hnodetype : deserialize_node_type (serialize_node_type n.node_type) =
      some n.node_type := by
    cases n.node_type <;> rfl
  rw [hnodetype]
  obtain ⟨t1, e1⟩ := take_drop_append_len (natToLE 8 (n.parent_offset.getD 0)) _ 8
    (natToLE_length 8 _)
  rw [t1, e1]
  obtain ⟨t2, e2⟩ := take_drop_append_len (natToLE 8 n.offset) _ 8 (natToLE_length 8 _)
  rw [t2, e2]
  obtain ⟨t3, e3⟩ := take_drop_append_len (natToLE 4 n.vectors.length) _ 4
    (natToLE_length 4 _)
  rw [t3, e3]
  have hrl3 : read_length (natToLE 4 n.vectors.length) = n.vectors.length := by
    unfold read_length
    exact natFromLE_natToLE 4 _ (by norm_num at hveclen ⊢; omega)
  rw [hrl3]
  rw [readVectors_append B n.vectors _ hvecB]
  obtain ⟨t4, e4⟩ := take_drop_append_len (natToLE 4 n.ids.length) _ 4 (natToLE_length 4 _)
  rw [t4, e4]
  have hrl4 : read_length (natToLE 4 n.ids.length) = n.ids.length := by
    unfold read_length
    exact natFromLE_natToLE 4 _ (by norm_num at hidslen ⊢; omega)
  rw [hrl4]
  rw [readNatsLE_append 16 n.ids _ (by
    intro x hx
    have := hids x hx
    norm_num at this ⊢
    omega)]
  obtain ⟨t5, e5⟩ := take_drop_append_len (natToLE 4 n.children.length) _ 4
    (natToLE_length 4 _)
  rw [t5, e5]
  have hrl5 : read_length (natToLE 4 n.children.length) = n.children.length := by
    unfold read_length
    exact natFromLE_natToLE 4 _ (by norm_num at hchlen ⊢; omega)
  rw [hrl5]
  rw [readNatsLE_append 8 n.children _ (by
    intro x hx
    have := hch x hx
    norm_num at this ⊢
    omega)]
  obtain ⟨t6, e6⟩ := take_drop_append_len (natToLE 4 n.metadata.length) _ 4
    (natToLE_length 4 _)
  rw [t6, e6]
  have hrl6 : read_length (natToLE 4 n.metadata.length) = n.metadata.length := by
    unfold read_length
    exact natFromLE_natToLE 4 _ (by norm_num at hmetalen ⊢; omega)
  rw [hrl6]
  have hmm : (n.metadata.map (fun m => natToLE 8 m.offset)) =
      ((n.metadata.map (fun m => m.offset)).map (natToLE 8)) := by
    rw [List.map_map]
    rfl
  rw [hmm]
  have hmlen : n.metadata.length = (n.metadata.map (fun m => m.offset)).length := by
    rw [List.length_map]
  rw [hmlen]
  rw [readNatsLE_append 8 (n.metadata.map (fun m => m.offset)) _ (by
    intro x hx
    obtain ⟨m, hm, hxm⟩ := List.mem_map.mp hx
    have := hmeta m hm
    norm_num at this ⊢
    omega)]
  have hparent : natFromLE (natToLE 8 (n.parent_offset.getD 0)) = n.parent_offset.getD 0 :=
    natFromLE_natToLE 8 _ (by norm_num at hpar ⊢; omega)
  have hoffset : natFromLE (natToLE 8 n.offset) = n.offset :=
    natFromLE_natToLE 8 _ (by norm_num at hoff ⊢; omega)
  rw [hparent, hoffset]
  rcases hnmv : n.node_metadata with _ | nm
  · have hz : natFromLE ((natToLE 8 0).take 8) = 0 := by
      rw [List.take_of_length_le (by simp)]
      exact natFromLE_natToLE 8 0 (by norm_num)
    rw [hz]
    unfold Node.roundTrip
    rcases hroot : n.is_root with _ | _ <;>
      simp [hnmv, List.map_map, hk]
  · have hnmoff := hnm nm hnmv
    have hz : natFromLE ((natToLE 8 nm.offset).take 8) = nm.offset := by
      rw [List.take_of_length_le (by simp)]
      exact natFromLE_natToLE 8 _ (by norm_num at hnmoff ⊢; omega)
    rw [hz]
    unfold Node.roundTrip
    rcases hroot : n.is_root with _ | _ <;>
      simp [hnmv, List.map_map, hk]

/-- C6 counterexample: the claim says deserialize(serialize(n)) equals n
in every field but offset, also when parent_offset is Some(0) and when
node_metadata is None. For the empty leaf with parent_offset Some 0 and
node_metadata None (B = 1, K = 2), the round trip collapses
parent_offset to None (node.rs line 616 treats 0 as no parent while
line 366 serializes Some(0) as 0) and rebuilds node_metadata as Some of
a reference to offset 0 (lines 521-529), so the result differs from n in
both fields. -/
theorem c6_round_trip_not_identity :
    let n : Node :=
      { vectors := [], ids := [], children := [], metadata := [], k := 2,
        node_type := NodeType.Leaf, offset := 5, is_root := false,
        parent_offset := some 0, node_metadata := none }
    Node.deserialize 1 2 n.serialize ≠ some n ∧
    (Node.deserialize 1 2 n.serialize).map (fun m => m.parent_offset) = some none ∧
    (Node.deserialize 1 2 n.serialize).map (fun m => m.node_metadata) =
      some (some { offset := 0, value := none }) ∧
    (Node.deserialize 1 2 n.serialize).map (fun m => m.offset) = some 5 := by
  refine ⟨by decide, by decide, by decide, by decide⟩

/-- C6 amended witness: the amended theorem applied to a concrete leaf
with one vector, one id, one metadata reference carrying a cached value,
a real parent offset and a present node_metadata reference. -/
theorem c6_node_round_trip_amended_witness :
    (({ vectors := [[7]], ids := [3], children := [], k := 2,
        metadata := [{ offset := 9, value := some [⟨[107], KVValue.Integer 1⟩] }],
        node_type := NodeType.Leaf, offset := 5, is_root := true,
        parent_offset := some 4,
        node_metadata := some { offset := 11, value := none } } : Node).serWF 1 2) ∧
    Node.deserialize 1 2
      ({ vectors := [[7]], ids := [3], children := [], k := 2,
         metadata := [{ offset := 9, value := some [⟨[107], KVValue.Integer 1⟩] }],
         node_type := NodeType.Leaf, offset := 5, is_root := true,
         parent_offset := some 4,
         node_metadata := some { offset := 11, value := none } } : Node).serialize =
      some ({ vectors := [[7]], ids := [3], children := [], k := 2,
              metadata := [{ offset := 9, value := some [⟨[107], KVValue.Integer 1⟩] }],
              node_type := NodeType.Leaf, offset := 5, is_root := true,
              parent_offset := some 4,
              node_metadata := some { offset := 11, value := none } } : Node).roundTrip :=
  ⟨by decide, c6_node_round_trip_amended 1 2 _ (by decide)⟩

end NodeSer

/-! ## WAL ingestion (src/structures/wal.rs and src/services/commit.rs) -/

/-- One row of the wal table (wal.rs schema): content hash, payload bytes
(the concatenated quantized vectors), the KV lists (stored as JSON in the
source, kept structured here), and the two timestamps. -/
structure WalRow where
  hash : Nat
  data : List Nat
  metadata : List (List KVPair)
  added_timestamp : Nat
  committed_timestamp : Option Nat
deriving DecidableEq, Repr

/-- WAL::add_to_commit_list from wal.rs, lines 221-246: inserts one row
with committed_timestamp NULL. The current time is a parameter. -/
def WAL.add_to_commit_list (now hash : Nat) (vectors : List ByteStr)
    (kvs : List (List KVPair)) (rows : List WalRow) : List WalRow :=
  rows ++ [{ hash := hash
             data := vectors.flatten
             metadata := kvs
             added_timestamp := now
             committed_timestamp := none }]

/-- WAL::add_to_wal from wal.rs, lines 334-343: quantize, hash, insert.
The 64-bit content hash (std DefaultHasher) and the clock are outside the
sources, so both are parameters; B is the missing QUANTIZED_VECTOR_SIZE.
No length check happens here. -/
def WAL.add_to_wal (B : Nat) (hashFn : List ByteStr → List (List KVPair) → Nat)
    (now : Nat) (rows : List WalRow) (vectors : List (List Int))
    (kvs : List (List KVPair)) : List WalRow :=
  let quantized_vectors := vectors.map (quantize B)
  let hash := hashFn quantized_vectors kvs
  WAL.add_to_commit_list now hash quantized_vectors kvs rows

/-- CommitService::add_to_wal from commit.rs, lines 260-279. The guard is
transcribed as in the source: it compares vectors.len() with
vectors.len() itself. -/
def CommitService.add_to_wal (B : Nat)
    (hashFn : List ByteStr → List (List KVPair) → Nat) (now : Nat)
    (rows : List WalRow) (vectors : List (List Int))
    (kvs : List (List KVPair)) : Except String (List WalRow) :=
  if vectors.length ≠ vectors.length then
    Except.error "Quantized vectors length mismatch"
  else
    Except.ok (WAL.add_to_wal B hashFn now rows vectors kvs)

/-- C5: the claim states that a call with vectors.len() different from
kvs.len() returns an InvalidArgument error and appends no row. The guard
in commit.rs line 265 compares vectors.len() against itself, so it never
fires: for one vector and zero KV lists the call succeeds and appends
the mismatched row to the WAL, for every content hash and clock. -/
theorem c5_mismatched_batch_not_rejected
    (hashFn : List ByteStr → List (List KVPair) → Nat) (now : Nat) :
    ([[1, -1, 1, -1, 1, -1, 1, -1]] : List (List Int)).length ≠
      ([] : List (List KVPair)).length ∧
    CommitService.add_to_wal 1 hashFn now [] [[1, -1, 1, -1, 1, -1, 1, -1]] [] =
      Except.ok [{ hash := hashFn [quantize 1 [1, -1, 1, -1, 1, -1, 1, -1]] []
                   data := quantize 1 [1, -1, 1, -1, 1, -1, 1, -1]
                   metadata := []
                   added_timestamp := now
                   committed_timestamp := none }] :=
  ⟨by decide, rfl⟩

/-! ## Block storage (src/structures/block_storage.rs)

The memory map is modelled at the granularity of the accessors of the
source (get/set_block_header_data, get_block_bytes, store_block and the
two file-header words): the disjoint byte regions of the map become
fields, block headers become a record, and each data area becomes a
function from offsets to bytes. resize_mmap only zero-extends the file
and is invisible at this granularity; the per-block locks are no-ops in
the source (acquire_lock returns Ok before touching the lock service).
-/

namespace BS

/-- BLOCK_SIZE from block_storage.rs. -/
def BLOCK_SIZE : Nat := 4096

/-- BLOCK_HEADER_SIZE: five u64 fields plus the is_primary byte. -/
def BLOCK_HEADER_SIZE : Nat := 8 * 5 + 1

/-- BLOCK_DATA_SIZE: payload bytes per page. -/
def BLOCK_DATA_SIZE : Nat := BLOCK_SIZE - BLOCK_HEADER_SIZE

/-- BlockHeaderData from block_storage.rs. -/
structure BlockHeaderData where
  is_primary : Bool
  index_in_chain : Nat
  primary_index : Nat
  next_block_offset : Nat
  previous_block_offset : Nat
  serialized_node_length : Nat
deriving DecidableEq, Repr

/-- The all-zero header of an untouched or cleared block. -/
def zeroHeader : BlockHeaderData :=
  { is_primary := false, index_in_chain := 0, primary_index := 0,
    next_block_offset := 0, previous_block_offset := 0, serialized_node_length := 0 }

/-- BlockStorage from block_storage.rs: the two file-header words and,
per block, its header record and its data area as a byte function. -/
structure BlockStorage where
  counter : Nat
  root : Nat
  headers : Nat → BlockHeaderData
  data : Nat → Nat → Nat

/-- A freshly created backing file: all bytes zero. -/
def BlockStorage.empty : BlockStorage :=
  { counter := 0, root := 0, headers := fun _ => zeroHeader, data := fun _ _ => 0 }

/-- BlockStorage::used_blocks: the stored counter plus one. -/
def BlockStorage.used_blocks (s : BlockStorage) : Nat := s.counter + 1

/-- BlockStorage::set_used_blocks. -/
def BlockStorage.set_used_blocks (s : BlockStorage) (n : Nat) : BlockStorage :=
  { s with counter := n }

/-- BlockStorage::root_offset. -/
def BlockStorage.root_offset (s : BlockStorage) : Nat := s.root

/-- BlockStorage::set_root_offset. -/
def BlockStorage.set_root_offset (s : BlockStorage) (n : Nat) : BlockStorage :=
  { s with root := n }

/-- BlockStorage::increment_and_allocate_block: reads used_blocks,
stores used_blocks + 1, returns the old used_blocks value. -/
def BlockStorage.increment_and_allocate_block (s : BlockStorage) :
    BlockStorage × Nat :=
  let used_blocks := s.used_blocks
  (s.set_used_blocks (used_blocks + 1), used_blocks)

/-- BlockStorage::get_block_header_data. -/
def BlockStorage.get_block_header_data (s : BlockStorage) (index : Nat) :
    BlockHeaderData :=
  s.headers index

/-- BlockStorage::set_block_header_data. -/
def BlockStorage.set_block_header_data (s : BlockStorage) (index : Nat)
    (d : BlockHeaderData) : BlockStorage :=
  { s with headers := fun j => if j = index then d else s.headers j }

/-- BlockStorage::get_block_bytes: the whole data area of a page. -/
def BlockStorage.get_block_bytes (s : BlockStorage) (index : Nat) : List Nat :=
  (List.range BLOCK_DATA_SIZE).map (s.data index)

/-- BlockStorage::store_block: writes data.len() bytes at the start of
the data area, leaving the rest of the area unchanged. -/
def BlockStorage.store_block (s : BlockStorage) (index : Nat) (bytes : List Nat) :
    BlockStorage :=
  { s with data := fun b o =>
      if b = index ∧ o < bytes.length then bytes.getD o 0 else s.data b o }

/-- BlockStorage::clear_block: zeroes the whole page, header included. -/
def BlockStorage.clear_block (s : BlockStorage) (index : Nat) : BlockStorage :=
  { s with
    headers := fun j => if j = index then zeroHeader else s.headers j
    data := fun b o => if b = index then 0 else s.data b o }

/-- The chain-collection loop at the start of BlockStorage::store: walk
next pointers from the primary id, pushing each block, stopping at
next = 0 or once blocks_required blocks are collected. Each iteration
pushes one block and the loop breaks at blocks_required pushes, so
blocks_required + 1 fuel always suffices and the fuel-out branch is
unreachable at the fuel the caller supplies. -/
def collectChain (s : BlockStorage) (blocks_required : Nat) :
    Nat → Nat → List Nat → List Nat
  | 0, _, acc => acc
  | fuel + 1, temp, acc =>
      if temp = 0 then acc
      else
        let block_header := s.get_block_header_data temp
        let acc := acc ++ [temp]
        if acc.length ≥ blocks_required then acc
        else collectChain s blocks_required fuel block_header.next_block_offset acc

/-- One iteration of the page-writing loop of BlockStorage::store:
write the next chunk into the current block, pick the next block (the
next reused block if the rewritten chain still has one, else a fresh
allocation, else 0 when the record ends here), and write the block
header. Returns the updated state and the chosen next block. -/
def writeStep (serialized : List Nat) (orig : Nat) (used_blocks : List Nat)
    (s : BlockStorage) (i cur prev remaining written : Nat) :
    BlockStorage × Nat :=
  let bytes_to_write := min remaining BLOCK_DATA_SIZE
  let s1 := s.store_block cur ((serialized.drop written).take bytes_to_write)
  let next :=
    if remaining > bytes_to_write then
      if i + 1 < used_blocks.length then (s1, used_blocks.getD (i + 1) 0)
      else s1.increment_and_allocate_block
    else (s1, 0)
  let block_header : BlockHeaderData :=
    { is_primary := i = 0
      index_in_chain := i
      primary_index := orig
      next_block_offset := next.2
      previous_block_offset := if i = 0 then 0 else prev
      serialized_node_length := serialized.length }
  (next.1.set_block_header_data cur block_header, next.2)

/-- The page-writing loop of BlockStorage::store, one writeStep per
iteration of for i in 0..blocks_required. Arguments: pages left to
write, state, loop index i, current block, previous block, remaining
bytes, bytes written. Returns the state and the final
(remaining, written) pair checked by the source after the loop. -/
def writePages (serialized : List Nat) (orig : Nat) (used_blocks : List Nat) :
    Nat → BlockStorage → Nat → Nat → Nat → Nat → Nat → BlockStorage × Nat × Nat
  | 0, s, _, _, _, remaining, written => (s, remaining, written)
  | n + 1, s, i, cur, prev, remaining, written =>
      let bytes_to_write := min remaining BLOCK_DATA_SIZE
      let step := writeStep serialized orig used_blocks s i cur prev remaining written
      writePages serialized orig used_blocks n step.1 (i + 1) step.2 cur
        (remaining - bytes_to_write) (written + bytes_to_write)

/-- BlockStorage::store from block_storage.rs, lines 183-289. -/
def BlockStorage.store (s : BlockStorage) (serialized : List Nat) (index : Nat) :
    Except String (BlockStorage × Nat) :=
  let serialized_len := serialized.length
  let blocks_required := (serialized_len + BLOCK_DATA_SIZE - 1) / BLOCK_DATA_SIZE
  let alloc := if index = 0 then s.increment_and_allocate_block else (s, index)
  let s0 := alloc.1
  let current_block_index := alloc.2
  let original_block_index := current_block_index
  let used_blocks :=
    if index ≠ 0 then collectChain s0 blocks_required (blocks_required + 1) index []
    else []
  let cleared :=
    if used_blocks.length > blocks_required then
      ((used_blocks.drop blocks_required).foldl BlockStorage.clear_block s0,
       used_blocks.take blocks_required)
    else (s0, used_blocks)
  let r := writePages serialized original_block_index cleared.2 blocks_required
    cleared.1 0 current_block_index 0 serialized_len 0
  if r.2.2 ≠ serialized_len then
    Except.error "Bytes written does not match serialized length"
  else if r.2.1 ≠ 0 then
    Except.error "Remaining bytes to write is not 0"
  else
    Except.ok (r.1, original_block_index)

/-- The chain walk of BlockStorage::load. The source loop terminates on
every chain reaching next = 0; the fuel-out error is reachable only on a
cyclic chain, where the source itself would loop forever. -/
def loadGo (s : BlockStorage) : Nat → Nat → List Nat → Except String (List Nat)
  | 0, _, _ => Except.error "fuel exhausted: cyclic chain"
  | fuel + 1, cur, serialized =>
      let block_header := s.get_block_header_data cur
      let serialized0 := if block_header.is_primary then [] else serialized
      let serialized1 := serialized0 ++ s.get_block_bytes cur
      if block_header.next_block_offset = 0 then
        if serialized1.length < block_header.serialized_node_length then
          Except.error "Serialized node length does not match actual length"
        else
          Except.ok serialized1
      else
        loadGo s fuel block_header.next_block_offset serialized1

/-- BlockStorage::load from block_storage.rs, lines 299-350. -/
def BlockStorage.load (s : BlockStorage) (offset : Nat) : Except String (List Nat) :=
  loadGo s (s.used_blocks + 1) offset []

theorem map_getD_range (l : List Nat) (d : Nat) :
    (List.range l.length).map (fun i => l.getD i d) = l := by
  apply List.ext_getElem
  · simp
  · intro i h1 h2
    simp only [List.getElem_map, List.getElem_range, List.getD_eq_getElem?_getD,
      List.getElem?_eq_getElem h2]
    rfl

theorem get_block_bytes_store_block (s : BlockStorage) (cur : Nat)
    (bytes : List Nat) (h : bytes.length ≤ BLOCK_DATA_SIZE) :
    (s.store_block cur bytes).get_block_bytes cur =
      bytes ++ (List.range (BLOCK_DATA_SIZE - bytes.length)).map
        (fun o => s.data cur (bytes.length + o)) := by
  apply List.ext_getElem
  · simp only [BlockStorage.get_block_bytes, List.length_map, List.length_range,
      List.length_append]
    omega
  · intro i h1 h2
    have hL : ((s.store_block cur bytes).get_block_bytes cur)[i] =
        (s.store_block cur bytes).data cur i := by
      simp only [BlockStorage.get_block_bytes, List.getElem_map, List.getElem_range]
    rw [hL]
    show (if cur = cur ∧ i < bytes.length then bytes.getD i 0 else s.data cur i) = _
    by_cases ho : i < bytes.length
    · rw [if_pos ⟨rfl, ho⟩, List.getElem_append_left ho,
        List.getD_eq_getElem?_getD, List.getElem?_eq_getElem ho]
      rfl
    · rw [if_neg (by
        intro hc
        exact ho hc.2)]
      rw [List.getElem_append_right (by omega)]
      simp only [List.getElem_map, List.getElem_range]
      congr 1
      omega

theorem store_block_data_ne (s : BlockStorage) (index b : Nat) (bytes : List Nat)
    (h : b ≠ index) : (s.store_block index bytes).data b = s.data b := by
  funext o
  unfold BlockStorage.store_block
  simp [h]

theorem set_header_headers_ne (s : BlockStorage) (index b : Nat)
    (d : BlockHeaderData) (h : b ≠ index) :
    (s.set_block_header_data index d).headers b = s.headers b := by
  unfold BlockStorage.set_block_header_data
  simp [h]

theorem getD_mem_drop (l : List Nat) (k : Nat) (h : k < l.length) :
    l.getD k 0 ∈ l.drop k := by
  rw [List.drop_eq_getElem_cons h]
  rw [List.getD_eq_getElem?_getD, List.getElem?_eq_getElem h]
  exact List.mem_cons_self _ _

theorem drop_succ_subset (l : List Nat) (k : Nat) :
    l.drop (k + 1) ⊆ l.drop k := by
  intro x hx
  rw [← List.drop_drop] at hx
  exact List.drop_subset 1 (l.drop k) hx

theorem nodup_getD_notin_drop (l : List Nat) (k : Nat) (hnd : l.Nodup)
    (h : k < l.length) : l.getD k 0 ∉ l.drop (k + 1) := by
  have hd : l.drop k = l.getD k 0 :: l.drop (k + 1) := by
    rw [List.drop_eq_getElem_cons h, List.getD_eq_getElem?_getD,
      List.getElem?_eq_getElem h]
    rfl
  have : (l.drop k).Nodup := (List.drop_sublist k l).nodup hnd
  rw [hd] at this
  exact (List.nodup_cons.mp this).1

theorem writeStep_counter (serialized : List Nat) (orig : Nat) (used : List Nat)
    (s : BlockStorage) (i cur prev remaining written : Nat) :
    s.counter ≤ (writeStep serialized orig used s i cur prev remaining written).1.counter := by
  unfold writeStep
  by_cases hrem : remaining > min remaining BLOCK_DATA_SIZE
  · by_cases hlen : i + 1 < used.length
    · simp [hrem, hlen, BlockStorage.set_block_header_data, BlockStorage.store_block]
    · simp only [hrem, hlen, if_true, if_false]
      show s.counter ≤ (BlockStorage.set_block_header_data _ _ _).counter
      simp only [BlockStorage.set_block_header_data,
        BlockStorage.increment_and_allocate_block, BlockStorage.set_used_blocks,
        BlockStorage.used_blocks, BlockStorage.store_block]
      omega
  · simp [hrem, BlockStorage.set_block_header_data, BlockStorage.store_block]

theorem writeStep_data (serialized : List Nat) (orig : Nat) (used : List Nat)
    (s : BlockStorage) (i cur prev remaining written : Nat) :
    (writeStep serialized orig used s i cur prev remaining written).1.data =
      (s.store_block cur
        ((serialized.drop written).take (min remaining BLOCK_DATA_SIZE))).data := by
  unfold writeStep
  by_cases hrem : remaining > min remaining BLOCK_DATA_SIZE
  · by_cases hlen : i + 1 < used.length
    · simp only [hrem, hlen, if_true]
      rfl
    · simp only [hrem, hlen, if_true, if_false]
      rfl
  · simp only [hrem, if_false]
    rfl

theorem writeStep_frame (serialized : List Nat) (orig : Nat) (used : List Nat)
    (s : BlockStorage) (i cur prev remaining written b : Nat) (hb : b ≠ cur) :
    (writeStep serialized orig used s i cur prev remaining written).1.headers b =
      s.headers b ∧
    (writeStep serialized orig used s i cur prev remaining written).1.data b =
      s.data b := by
  unfold writeStep
  by_cases hrem : remaining > min remaining BLOCK_DATA_SIZE
  · by_cases hlen : i + 1 < used.length
    · constructor
      · simp only [hrem, hlen, if_true]
        exact set_header_headers_ne _ _ _ _ hb
      · simp only [hrem, hlen, if_true]
        show (BlockStorage.store_block _ _ _).data b = s.data b
        exact store_block_data_ne _ _ _ _ hb
    · constructor
      · simp only [hrem, hlen, if_true, if_false]
        exact set_header_headers_ne _ _ _ _ hb
      · simp only [hrem, hlen, if_true, if_false]
        show (BlockStorage.store_block _ _ _).data b = s.data b
        exact store_block_data_ne _ _ _ _ hb
  · constructor
    · simp only [hrem, if_false]
      exact set_header_headers_ne _ _ _ _ hb
    · simp only [hrem, if_false]
      show (BlockStorage.store_block _ _ _).data b = s.data b
      exact store_block_data_ne _ _ _ _ hb

theorem writeStep_headers_cur (serialized : List Nat) (orig : Nat) (used : List Nat)
    (s : BlockStorage) (i cur prev remaining written : Nat) :
    (writeStep serialized orig used s i cur prev remaining written).1.headers cur =
      { is_primary := i = 0
        index_in_chain := i
        primary_index := orig
        next_block_offset :=
          (writeStep serialized orig used s i cur prev remaining written).2
        previous_block_offset := if i = 0 then 0 else prev
        serialized_node_length := serialized.length } := by
  unfold writeStep
  by_cases hrem : remaining > min remaining BLOCK_DATA_SIZE
  · by_cases hlen : i + 1 < used.length
    · simp [hrem, hlen, BlockStorage.set_block_header_data]
    · simp [hrem, hlen, BlockStorage.set_block_header_data]
  · simp [hrem, BlockStorage.set_block_header_data]

theorem writeStep_data_cur (serialized : List Nat) (orig : Nat) (used : List Nat)
    (s : BlockStorage) (i cur prev remaining written : Nat) (o : Nat) :
    (writeStep serialized orig used s i cur prev remaining written).1.data cur o =
      if o < ((serialized.drop written).take (min remaining BLOCK_DATA_SIZE)).length
      then serialized.getD (written + o) 0
      else s.data cur o := by
  rw [writeStep_data]
  show (if cur = cur ∧ o < ((serialized.drop written).take
      (min remaining BLOCK_DATA_SIZE)).length then
        ((serialized.drop written).take (min remaining BLOCK_DATA_SIZE)).getD o 0
      else s.data cur o) = _
  by_cases ho : o < ((serialized.drop written).take (min remaining BLOCK_DATA_SIZE)).length
  · rw [if_pos ⟨rfl, ho⟩, if_pos ho]
    rw [List.getD_eq_getElem?_getD, List.getElem?_take_of_lt (by
      simp only [List.length_take] at ho
      omega)]
    rw [List.getElem?_drop, ← List.getD_eq_getElem?_getD]
  · rw [if_neg (by
      intro hc
      exact ho hc.2), if_neg ho]

theorem writeStep_next (serialized : List Nat) (orig : Nat) (used : List Nat)
    (s : BlockStorage) (i cur prev remaining written : Nat) :
    (remaining > min remaining BLOCK_DATA_SIZE →
      (i + 1 < used.length →
        (writeStep serialized orig used s i cur prev remaining written).2 =
          used.getD (i + 1) 0 ∧
        (writeStep serialized orig used s i cur prev remaining written).1.counter =
          s.counter) ∧
      (¬ i + 1 < used.length →
        (writeStep serialized orig used s i cur prev remaining written).2 =
          s.counter + 1 ∧
        (writeStep serialized orig used s i cur prev remaining written).1.counter =
          s.counter + 2)) ∧
    (¬ remaining > min remaining BLOCK_DATA_SIZE →
      (writeStep serialized orig used s i cur prev remaining written).2 = 0 ∧
      (writeStep serialized orig used s i cur prev remaining written).1.counter =
        s.counter) := by
  unfold writeStep
  constructor
  · intro hrem
    constructor
    · intro hlen
      simp [hrem, hlen, BlockStorage.set_block_header_data, BlockStorage.store_block]
    · intro hlen
      simp [hrem, hlen, BlockStorage.set_block_header_data, BlockStorage.store_block,
        BlockStorage.increment_and_allocate_block, BlockStorage.set_used_blocks,
        BlockStorage.used_blocks]
  · intro hrem
    simp [hrem, BlockStorage.set_block_header_data, BlockStorage.store_block]

theorem writePages_counter_mono (serialized : List Nat) (orig : Nat)
    (used : List Nat) :
    ∀ (n : Nat) (S : BlockStorage) (i cur prev rem written : Nat),
      S.counter ≤ (writePages serialized orig used n S i cur prev rem written).1.counter := by
  intro n
  induction n with
  | zero => intro S i cur prev rem written; exact Nat.le_refl _
  | succ m ih =>
      intro S i cur prev rem written
      rw [writePages]
      exact Nat.le_trans (writeStep_counter serialized orig used S i cur prev rem written)
        (ih _ _ _ _ _ _)

theorem writePages_frame (serialized : List Nat) (orig : Nat) (used : List Nat) :
    ∀ (n : Nat) (S : BlockStorage) (i cur prev rem written b : Nat),
      1 ≤ b → b ≠ cur → b ∉ used.drop (i + 1) → b ≤ S.counter →
      ((writePages serialized orig used n S i cur prev rem written).1.headers b =
        S.headers b ∧
       (writePages serialized orig used n S i cur prev rem written).1.data b =
        S.data b) := by
  intro n
  induction n with
  | zero => intro S i cur prev rem written b _ _ _ _; exact ⟨rfl, rfl⟩
  | succ m ih =>
      intro S i cur prev rem written b hb1 hbc hbu hble
      rw [writePages]
      have hstep := writeStep_next serialized orig used S i cur prev rem written
      have hframe := writeStep_frame serialized orig used S i cur prev rem written b hbc
      have hcnt := writeStep_counter serialized orig used S i cur prev rem written
      have hbu2 : b ∉ used.drop (i + 1 + 1) :=
        fun hx => hbu (drop_succ_subset used (i + 1) hx)
      have hbnext : b ≠ (writeStep serialized orig used S i cur prev rem written).2 := by
        by_cases hrem : rem > min rem BLOCK_DATA_SIZE
        · by_cases hlen : i + 1 < used.length
          · rw [((hstep.1 hrem).1 hlen).1]
            intro he
            exact hbu (he ▸ getD_mem_drop used (i + 1) hlen)
          · rw [((hstep.1 hrem).2 hlen).1]
            omega
        · rw [(hstep.2 hrem).1]
          omega
      obtain ⟨hh, hd⟩ := ih
        (writeStep serialized orig used S i cur prev rem written).1 (i + 1)
        (writeStep serialized orig used S i cur prev rem written).2 cur
        (rem - min rem BLOCK_DATA_SIZE) (written + min rem BLOCK_DATA_SIZE) b
        hb1 hbnext hbu2 (Nat.le_trans hble hcnt)
      exact ⟨hh.trans hframe.1, hd.trans hframe.2⟩

theorem map_range_congr (X Y : Nat) (f g : Nat → Nat) (hXY : X = Y)
    (hfg : ∀ o, f o = g o) :
    (List.range X).map f = (List.range Y).map g := by
  subst hXY
  exact List.map_congr_left (fun o _ => hfg o)

theorem writePages_load (serialized : List Nat) (orig : Nat) (used : List Nat)
    (husedpos : ∀ x ∈ used, 1 ≤ x) (husednodup : used.Nodup) :
    ∀ (n : Nat) (S : BlockStorage) (i cur prev written : Nat),
      1 ≤ n →
      written + (n - 1) * BLOCK_DATA_SIZE < serialized.length →
      serialized.length ≤ written + n * BLOCK_DATA_SIZE →
      (i = 0 → written = 0) →
      cur ≠ 0 →
      cur ≤ S.counter →
      cur ∉ used.drop (i + 1) →
      (∀ x ∈ used, x ≤ S.counter) →
      (writePages serialized orig used n S i cur prev
        (serialized.length - written) written).2.1 = 0 ∧
      (writePages serialized orig used n S i cur prev
        (serialized.length - written) written).2.2 = serialized.length ∧
      (used = [] →
        (writePages serialized orig used n S i cur prev
          (serialized.length - written) written).1.counter =
          S.counter + 2 * (n - 1)) ∧
      (i + n ≤ used.length →
        (writePages serialized orig used n S i cur prev
          (serialized.length - written) written).1.counter = S.counter) ∧
      (∀ o, (writePages serialized orig used n S i cur prev
          (serialized.length - written) written).1.data cur o =
        if o < min (serialized.length - written) BLOCK_DATA_SIZE
        then serialized.getD (written + o) 0 else S.data cur o) ∧
      (∃ lastb, (lastb = cur ∨ lastb ∈ used.drop (i + 1) ∨ S.counter < lastb) ∧
        (n = 1 → lastb = cur) ∧
        ∀ fuel, n ≤ fuel → ∀ acc : List Nat, (i ≠ 0 → acc.length = written) →
          loadGo (writePages serialized orig used n S i cur prev
              (serialized.length - written) written).1 fuel cur acc =
            Except.ok ((if i = 0 then [] else acc) ++ (serialized.drop written ++
              (List.range ((written + n * BLOCK_DATA_SIZE) - serialized.length)).map
                (fun o => S.data lastb ((serialized.length - written -
                  (n - 1) * BLOCK_DATA_SIZE) + o))))) := by
  intro n
  induction n with
  | zero =>
      intro S i cur prev written h1
      exact absurd h1 (by omega)
  | succ m ih =>
      intro S i cur prev written h1 hlt hle hw0 hc0 hcle hcu hub
      simp only [Nat.add_sub_cancel] at hlt ⊢
      have hlen : serialized.length - written ≤ serialized.length := Nat.sub_le _ _
      have hwlt : written < serialized.length := by
        have := hlt
        omega
      rw [writePages]
      rcases Nat.eq_zero_or_pos m with hm | hm
      · -- base case: the last page
        subst hm
        have hrle : serialized.length - written ≤ BLOCK_DATA_SIZE := by omega
        have hmin : min (serialized.length - written) BLOCK_DATA_SIZE =
            serialized.length - written := by omega
        have hnogt : ¬ (serialized.length - written >
            min (serialized.length - written) BLOCK_DATA_SIZE) := by omega
        have hstep := writeStep_next serialized orig used S i cur prev
          (serialized.length - written) written
        obtain ⟨hnext0, hcnt0⟩ := hstep.2 hnogt
        have hchunklen : ((serialized.drop written).take
            (min (serialized.length - written) BLOCK_DATA_SIZE)).length =
            serialized.length - written := by
          rw [List.length_take, List.length_drop]
          omega
        have hchunk : (serialized.drop written).take
            (min (serialized.length - written) BLOCK_DATA_SIZE) =
            serialized.drop written := by
          apply List.take_of_length_le
          rw [List.length_drop]
          omega
        rw [writePages]
        refine ⟨by simp; omega, by simp; omega, ?_, ?_, ?_, ?_⟩
        · intro _
          rw [hcnt0]
          omega
        · intro _
          rw [hcnt0]
        · intro o
          rw [writeStep_data_cur, hchunklen]
          rw [hmin]
        · refine ⟨cur, Or.inl rfl, fun _ => rfl, ?_⟩
          intro fuel hfuel acc hacc
          cases fuel with
          | zero => exact absurd hfuel (by omega)
          | succ f =>
              rw [loadGo]
              dsimp only
              simp only [BlockStorage.get_block_header_data]
              have hhd := writeStep_headers_cur serialized orig used S i cur prev
                (serialized.length - written) written
              simp only [BlockStorage.get_block_header_data] at hhd
              simp only [hhd]
              simp only [hnext0]
              rw [if_pos trivial]
              have hbytes : (writeStep serialized orig used S i cur prev
                  (serialized.length - written) written).1.get_block_bytes cur =
                  serialized.drop written ++
                  (List.range (BLOCK_DATA_SIZE - (serialized.length - written))).map
                    (fun o => S.data cur ((serialized.length - written) + o)) := by
                unfold BlockStorage.get_block_bytes
                rw [show (writeStep serialized orig used S i cur prev
                    (serialized.length - written) written).1.data =
                    (S.store_block cur ((serialized.drop written).take
                      (min (serialized.length - written) BLOCK_DATA_SIZE))).data
                  from writeStep_data serialized orig used S i cur prev
                    (serialized.length - written) written]
                have := get_block_bytes_store_block S cur
                  ((serialized.drop written).take
                    (min (serialized.length - written) BLOCK_DATA_SIZE))
                  (by rw [hchunklen]; omega)
                unfold BlockStorage.get_block_bytes at this
                rw [this, hchunklen, hchunk]
              rw [hbytes]
              rw [if_neg (by
                simp only [List.length_append, List.length_map, List.length_range,
                  List.length_drop]
                by_cases hi : i = 0
                · have := hw0 hi
                  simp [hi]
                  omega
                · have := hacc hi
                  simp [hi]
                  omega)]
              have hmapeq : ∀ A B : Nat, A = BLOCK_DATA_SIZE - (serialized.length - written) →
                  B = serialized.length - written →
                  (List.range A).map (fun o => S.data cur ((serialized.length - written) + o)) =
                  (List.range ((written + (0 + 1) * BLOCK_DATA_SIZE) - serialized.length)).map
                    (fun o => S.data cur ((serialized.length - written -
                      0 * BLOCK_DATA_SIZE) + o)) := by
                intro A B hA hB
                apply map_range_congr
                · omega
                · intro o
                  exact congrArg (S.data cur) (by omega)
              by_cases hi : i = 0
              · simp only [hi, decide_True, if_true, List.nil_append]
                rw [hmapeq _ (serialized.length - written) rfl rfl]
              · simp only [hi, decide_False, if_false]
                rw [hmapeq _ (serialized.length - written) rfl rfl,
                  if_neg Bool.false_ne_true]
      · -- inductive step: a full page then the rest of the chain
        have hmul1 : (m + 1) * BLOCK_DATA_SIZE = m * BLOCK_DATA_SIZE + BLOCK_DATA_SIZE := by
          ring
        have hmul2 : m * BLOCK_DATA_SIZE = (m - 1) * BLOCK_DATA_SIZE + BLOCK_DATA_SIZE := by
          have h2 : m - 1 + 1 = m := by omega
          calc m * BLOCK_DATA_SIZE = (m - 1 + 1) * BLOCK_DATA_SIZE := by rw [h2]
            _ = (m - 1) * BLOCK_DATA_SIZE + BLOCK_DATA_SIZE := by ring
        have hmBDS : written + BLOCK_DATA_SIZE < serialized.length := by
          have h1m : BLOCK_DATA_SIZE ≤ m * BLOCK_DATA_SIZE := by
            calc BLOCK_DATA_SIZE = 1 * BLOCK_DATA_SIZE := (Nat.one_mul _).symm
              _ ≤ m * BLOCK_DATA_SIZE := Nat.mul_le_mul_right _ hm
          omega
        have hrem : serialized.length - written > BLOCK_DATA_SIZE := by omega
        have hmin : min (serialized.length - written) BLOCK_DATA_SIZE =
            BLOCK_DATA_SIZE := by omega
        have hgt : serialized.length - written >
            min (serialized.length - written) BLOCK_DATA_SIZE := by omega
        have hstep := writeStep_next serialized orig used S i cur prev
          (serialized.length - written) written
        have hchunklen : ((serialized.drop written).take
            (min (serialized.length - written) BLOCK_DATA_SIZE)).length =
            BLOCK_DATA_SIZE := by
          rw [List.length_take, List.length_drop]
          omega
        have hsc := writeStep_counter serialized orig used S i cur prev
          (serialized.length - written) written
        -- facts about the chosen next block
        have hnextfacts :
            (writeStep serialized orig used S i cur prev
              (serialized.length - written) written).2 ≠ 0 ∧
            (writeStep serialized orig used S i cur prev
              (serialized.length - written) written).2 ≤
              (writeStep serialized orig used S i cur prev
                (serialized.length - written) written).1.counter ∧
            (writeStep serialized orig used S i cur prev
              (serialized.length - written) written).2 ∉ used.drop (i + 1 + 1) ∧
            ((writeStep serialized orig used S i cur prev
              (serialized.length - written) written).2 ∈ used.drop (i + 1) ∨
             S.counter < (writeStep serialized orig used S i cur prev
              (serialized.length - written) written).2) ∧
            cur ≠ (writeStep serialized orig used S i cur prev
              (serialized.length - written) written).2 := by
          by_cases hl : i + 1 < used.length
          · obtain ⟨he, hc⟩ := (hstep.1 hgt).1 hl
            have hmem : used.getD (i + 1) 0 ∈ used.drop (i + 1) :=
              getD_mem_drop used (i + 1) hl
            have hmemall : used.getD (i + 1) 0 ∈ used :=
              List.drop_subset _ _ hmem
            refine ⟨?_, ?_, ?_, ?_, ?_⟩
            · rw [he]
              have := husedpos _ hmemall
              omega
            · rw [he, hc]
              exact hub _ hmemall
            · rw [he]
              exact nodup_getD_notin_drop used (i + 1) husednodup hl
            · rw [he]
              exact Or.inl hmem
            · rw [he]
              intro hcontra
              exact hcu (hcontra ▸ hmem)
          · obtain ⟨he, hc⟩ := (hstep.1 hgt).2 hl
            refine ⟨?_, ?_, ?_, ?_, ?_⟩
            · rw [he]; omega
            · rw [he, hc]; omega
            · rw [he]
              intro hmem
              have := hub _ (List.drop_subset _ _ hmem)
              omega
            · rw [he]
              exact Or.inr (by omega)
            · rw [he]
              omega
        obtain ⟨hn0, hnle, hnu, hnclass, hcurne⟩ := hnextfacts
        have hargs1 : serialized.length - written -
            min (serialized.length - written) BLOCK_DATA_SIZE =
            serialized.length - (written + BLOCK_DATA_SIZE) := by omega
        have hargs2 : written + min (serialized.length - written) BLOCK_DATA_SIZE =
            written + BLOCK_DATA_SIZE := by omega
        rw [hargs1, hargs2]
        have hubS3 : ∀ x ∈ used, x ≤
            (writeStep serialized orig used S i cur prev
              (serialized.length - written) written).1.counter :=
          fun x hx => Nat.le_trans (hub x hx) hsc
        obtain ⟨ha, hb, hc, hd, hdata, lastb, hlastb, hlast1, hwalk⟩ :=
          ih (writeStep serialized orig used S i cur prev
              (serialized.length - written) written).1 (i + 1)
            (writeStep serialized orig used S i cur prev
              (serialized.length - written) written).2 cur
            (written + BLOCK_DATA_SIZE)
            hm
            (by
              have : (m - 1) * BLOCK_DATA_SIZE + BLOCK_DATA_SIZE = m * BLOCK_DATA_SIZE := by
                have h2 : m - 1 + 1 = m := by omega
                calc (m - 1) * BLOCK_DATA_SIZE + BLOCK_DATA_SIZE
                    = (m - 1 + 1) * BLOCK_DATA_SIZE := by ring
                  _ = m * BLOCK_DATA_SIZE := by rw [h2]
              omega)
            (by
              have : m * BLOCK_DATA_SIZE + BLOCK_DATA_SIZE = (m + 1) * BLOCK_DATA_SIZE := by
                ring
              omega)
            (by omega)
            hn0 hnle hnu hubS3
        have hframe : ∀ b, 1 ≤ b → b ≠ (writeStep serialized orig used S i cur prev
              (serialized.length - written) written).2 →
            b ∉ used.drop (i + 1 + 1) →
            b ≤ (writeStep serialized orig used S i cur prev
              (serialized.length - written) written).1.counter →
            ((writePages serialized orig used m
                (writeStep serialized orig used S i cur prev
                  (serialized.length - written) written).1 (i + 1)
                (writeStep serialized orig used S i cur prev
                  (serialized.length - written) written).2 cur
                (serialized.length - (written + BLOCK_DATA_SIZE))
                (written + BLOCK_DATA_SIZE)).1.headers b =
              (writeStep serialized orig used S i cur prev
                (serialized.length - written) written).1.headers b ∧
             (writePages serialized orig used m
                (writeStep serialized orig used S i cur prev
                  (serialized.length - written) written).1 (i + 1)
                (writeStep serialized orig used S i cur prev
                  (serialized.length - written) written).2 cur
                (serialized.length - (written + BLOCK_DATA_SIZE))
                (written + BLOCK_DATA_SIZE)).1.data b =
              (writeStep serialized orig used S i cur prev
                (serialized.length - written) written).1.data b) :=
          fun b hb1 hbne hbu hble =>
            writePages_frame serialized orig used m _ (i + 1) _ cur _ _ b hb1 hbne hbu hble
        have hcurframe := hframe cur (by omega) hcurne
          (fun hx => hcu (drop_succ_subset used (i + 1) hx)) (Nat.le_trans hcle hsc)
        refine ⟨ha, hb, ?_, ?_, ?_, ?_⟩
        · intro hue
          have hl : ¬ (i + 1 < used.length) := by
            rw [hue]
            simp
          obtain ⟨_, hcount⟩ := (hstep.1 hgt).2 hl
          rw [hc hue, hcount]
          omega
        · intro hul
          have hl : i + 1 < used.length := by omega
          obtain ⟨_, hcount⟩ := (hstep.1 hgt).1 hl
          rw [hd (by omega), hcount]
        · intro o
          rw [hcurframe.2, writeStep_data_cur, hchunklen, hmin]
        · refine ⟨lastb, ?_, fun h1 => absurd h1 (by omega), ?_⟩
          · rcases hlastb with he | he | he
            · rw [he]
              rcases hnclass with hc2 | hc2
              · exact Or.inr (Or.inl hc2)
              · exact Or.inr (Or.inr hc2)
            · exact Or.inr (Or.inl (drop_succ_subset used (i + 1) he))
            · exact Or.inr (Or.inr (by
                have := hsc
                omega))
          · intro fuel hfuel acc hacc
            cases fuel with
            | zero => exact absurd hfuel (by omega)
            | succ f =>
                rw [loadGo]
                simp only [BlockStorage.get_block_header_data]
                simp only [hcurframe.1]
                have hhd := writeStep_headers_cur serialized orig used S i cur prev
                  (serialized.length - written) written
                simp only [BlockStorage.get_block_header_data] at hhd
                simp only [hhd]
                rw [if_neg hn0]
                have hlastbne : lastb ≠ cur := by
                  rcases hlastb with he | he | he
                  · rw [he]
                    exact fun hcontra => hcurne hcontra.symm
                  · intro hcontra
                    exact hcu (hcontra ▸ drop_succ_subset used (i + 1) he)
                  · intro hcontra
                    rw [hcontra] at he
                    have := Nat.le_trans hcle hsc
                    have := hsc
                    omega
                have hSdata : (writeStep serialized orig used S i cur prev
                    (serialized.length - written) written).1.data lastb =
                    S.data lastb := by
                  rw [writeStep_data]
                  exact store_block_data_ne _ _ _ _ hlastbne
                have hbytes : (writePages serialized orig used m
                    (writeStep serialized orig used S i cur prev
                      (serialized.length - written) written).1 (i + 1)
                    (writeStep serialized orig used S i cur prev
                      (serialized.length - written) written).2 cur
                    (serialized.length - (written + BLOCK_DATA_SIZE))
                    (written + BLOCK_DATA_SIZE)).1.get_block_bytes cur =
                    (serialized.drop written).take BLOCK_DATA_SIZE := by
                  unfold BlockStorage.get_block_bytes
                  rw [hcurframe.2]
                  rw [show (writeStep serialized orig used S i cur prev
                      (serialized.length - written) written).1.data =
                      (S.store_block cur ((serialized.drop written).take
                        (min (serialized.length - written) BLOCK_DATA_SIZE))).data
                    from writeStep_data serialized orig used S i cur prev
                      (serialized.length - written) written]
                  have := get_block_bytes_store_block S cur
                    ((serialized.drop written).take
                      (min (serialized.length - written) BLOCK_DATA_SIZE))
                    (by rw [hchunklen])
                  unfold BlockStorage.get_block_bytes at this
                  rw [this, hchunklen]
                  simp only [Nat.sub_self, List.range_zero, List.map_nil,
                    List.append_nil]
                  rw [hmin]
                rw [hbytes]
                have happ := hwalk f (by omega)
                  ((if (decide (i = 0) : Bool) then [] else acc) ++
                    (serialized.drop written).take BLOCK_DATA_SIZE)
                  (by
                    intro _
                    simp only [List.length_append, List.length_take, List.length_drop]
                    by_cases hi : i = 0
                    · have := hw0 hi
                      simp [hi]
                      omega
                    · have := hacc hi
                      simp [hi]
                      omega)
                rw [happ]
                congr 1
                rw [if_neg (by omega : ¬ (i + 1 = 0))]
                have hsplit : (serialized.drop written).take BLOCK_DATA_SIZE ++
                    serialized.drop (written + BLOCK_DATA_SIZE) =
                    serialized.drop written := by
                  rw [show serialized.drop (written + BLOCK_DATA_SIZE) =
                      (serialized.drop written).drop BLOCK_DATA_SIZE from by
                    rw [List.drop_drop]]
                  exact List.take_append_drop _ _
                simp only [hSdata]
                by_cases hi : i = 0
                · simp only [hi, decide_True, if_true, List.nil_append]
                  rw [← List.append_assoc, hsplit]
                  refine congrArg (fun t => serialized.drop written ++ t) ?_
                  apply map_range_congr
                  · omega
                  · intro o
                    exact congrArg (S.data lastb) (by omega)
                · simp only [hi, decide_False, if_false]
                  rw [if_neg Bool.false_ne_true]
                  rw [List.append_assoc]
                  rw [← List.append_assoc ((serialized.drop written).take BLOCK_DATA_SIZE),
                    hsplit]
                  refine congrArg (fun t => acc ++ (serialized.drop written ++ t)) ?_
                  apply map_range_congr
                  · omega
                  · intro o
                    exact congrArg (S.data lastb) (by omega)

theorem store_empty_spec (s : List Nat) (hs : 1 ≤ s.length) :
    ∃ S1 : BlockStorage,
      BlockStorage.empty.store s 0 = Except.ok (S1, 1) ∧
      S1.load 1 = Except.ok (s ++ List.replicate
        (((s.length + BLOCK_DATA_SIZE - 1) / BLOCK_DATA_SIZE) * BLOCK_DATA_SIZE -
          s.length) 0) ∧
      (∀ o, S1.data 1 o =
        if o < min s.length BLOCK_DATA_SIZE then s.getD o 0 else 0) ∧
      2 ≤ S1.counter := by
  have hBDS : BLOCK_DATA_SIZE = 4055 := rfl
  generalize hpages : (s.length + BLOCK_DATA_SIZE - 1) / BLOCK_DATA_SIZE = pages
  have hpage1 : 1 ≤ pages := by
    rw [← hpages, hBDS]
    omega
  have hplt : (pages - 1) * BLOCK_DATA_SIZE < s.length := by
    rw [← hpages, hBDS]
    omega
  have hple : s.length ≤ pages * BLOCK_DATA_SIZE := by
    rw [← hpages, hBDS]
    omega
  have hS0 : BlockStorage.empty.increment_and_allocate_block =
      ({ BlockStorage.empty with counter := 2 }, 1) := rfl
  obtain ⟨ha, hb, hc, _, hdata, lastb, hlastb, _, hwalk⟩ :=
    writePages_load s 1 [] (by simp) List.nodup_nil pages
      { BlockStorage.empty with counter := 2 } 0 1 0 0
      hpage1 (by omega) (by omega) (fun _ => rfl) (by omega)
      (by show (1 : Nat) ≤ 2; omega)
      (by simp) (by simp)
  rw [Nat.sub_zero] at ha hb hc hdata hwalk
  refine ⟨(writePages s 1 [] pages { BlockStorage.empty with counter := 2 }
    0 1 0 s.length 0).1, ?_, ?_, ?_, ?_⟩
  · show BlockStorage.store _ _ _ = _
    have e : BlockStorage.empty.store s 0 =
        (if (writePages s 1 [] ((s.length + BLOCK_DATA_SIZE - 1) / BLOCK_DATA_SIZE)
            { BlockStorage.empty with counter := 2 } 0 1 0 s.length 0).2.2 ≠ s.length
         then Except.error "Bytes written does not match serialized length"
         else if (writePages s 1 [] ((s.length + BLOCK_DATA_SIZE - 1) / BLOCK_DATA_SIZE)
            { BlockStorage.empty with counter := 2 } 0 1 0 s.length 0).2.1 ≠ 0
         then Except.error "Remaining bytes to write is not 0"
         else Except.ok ((writePages s 1 [] ((s.length + BLOCK_DATA_SIZE - 1) / BLOCK_DATA_SIZE)
            { BlockStorage.empty with counter := 2 } 0 1 0 s.length 0).1, 1)) := rfl
    rw [e, hpages]
    rw [if_neg (by rw [hb]; intro hcontra; exact hcontra rfl)]
    rw [if_neg (by rw [ha]; intro hcontra; exact hcontra rfl)]
  · unfold BlockStorage.load BlockStorage.used_blocks
    have hcnt := hc rfl
    have hwk := hwalk ((writePages s 1 [] pages { BlockStorage.empty with counter := 2 }
        0 1 0 s.length 0).1.counter + 1 + 1) (by rw [hcnt]; omega) []
      (fun h => absurd rfl h)
    rw [hwk]
    have hmap : ∀ k c, (List.range k).map
        (fun o => ({ BlockStorage.empty with counter := 2 } : BlockStorage).data
          lastb (c + o)) = List.replicate k 0 := by
      intro k c
      rw [show (fun o => ({ BlockStorage.empty with counter := 2 } :
          BlockStorage).data lastb (c + o)) = fun _ : Nat => 0 from rfl]
      exact List.map_const _ _ |>.trans (by rw [List.length_range])
    refine congrArg Except.ok ?_
    show [] ++ (s ++ (List.range (0 + pages * BLOCK_DATA_SIZE - s.length)).map
      (fun o => ({ BlockStorage.empty with counter := 2 } : BlockStorage).data
        lastb (s.length - (pages - 1) * BLOCK_DATA_SIZE + o))) =
      s ++ List.replicate (pages * BLOCK_DATA_SIZE - s.length) 0
    rw [List.nil_append]
    refine congrArg (fun l => s ++ l) ?_
    rw [hmap]
    rw [Nat.zero_add]
  · intro o
    rw [hdata o, Nat.zero_add]
    rfl
  · have hcnt := hc rfl
    rw [hcnt]
    exact Nat.le_add_right 2 _

theorem rewrite_shorter_spec (s t : List Nat) (ht1 : 1 ≤ t.length)
    (hts : t.length ≤ s.length) (htB : t.length ≤ BLOCK_DATA_SIZE) :
    ∀ S1 : BlockStorage,
      (∀ o, S1.data 1 o =
        if o < min s.length BLOCK_DATA_SIZE then s.getD o 0 else 0) →
      2 ≤ S1.counter →
      ∃ S2 : BlockStorage, S1.store t 1 = Except.ok (S2, 1) ∧
        S2.load 1 = Except.ok (t ++ (List.range (BLOCK_DATA_SIZE - t.length)).map
          (fun o => if t.length + o < min s.length BLOCK_DATA_SIZE
                    then s.getD (t.length + o) 0 else 0)) := by
  intro S1 hdata1 hcnt1
  have hBDS : BLOCK_DATA_SIZE = 4055 := rfl
  have hpages : (t.length + BLOCK_DATA_SIZE - 1) / BLOCK_DATA_SIZE = 1 := by
    rw [hBDS] at htB ⊢
    omega
  have hchain : collectChain S1 1 2 1 [] = [1] := rfl
  obtain ⟨ha, hb, _, hd, hdata, lastb, hlastb, hlast1, hwalk⟩ :=
    writePages_load t 1 [1] (by simp) (by simp) 1 S1 0 1 0 0
      (by omega) (by simp; omega) (by simp; omega) (fun _ => rfl) (by omega)
      (by omega) (by simp) (by
        intro x hx
        simp at hx
        omega)
  rw [Nat.sub_zero] at ha hb hd hdata hwalk
  have hlb : lastb = 1 := hlast1 rfl
  subst hlb
  refine ⟨(writePages t 1 [1] 1 S1 0 1 0 t.length 0).1, ?_, ?_⟩
  · show BlockStorage.store _ _ _ = _
    have e : S1.store t 1 =
        (if (writePages t 1 (if (collectChain S1 ((t.length + BLOCK_DATA_SIZE - 1) / BLOCK_DATA_SIZE) (((t.length + BLOCK_DATA_SIZE - 1) / BLOCK_DATA_SIZE) + 1) 1 []).length > ((t.length + BLOCK_DATA_SIZE - 1) / BLOCK_DATA_SIZE)
         then (((collectChain S1 ((t.length + BLOCK_DATA_SIZE - 1) / BLOCK_DATA_SIZE) (((t.length + BLOCK_DATA_SIZE - 1) / BLOCK_DATA_SIZE) + 1) 1 []).drop ((t.length + BLOCK_DATA_SIZE - 1) / BLOCK_DATA_SIZE)).foldl BlockStorage.clear_block S1,
               (collectChain S1 ((t.length + BLOCK_DATA_SIZE - 1) / BLOCK_DATA_SIZE) (((t.length + BLOCK_DATA_SIZE - 1) / BLOCK_DATA_SIZE) + 1) 1 []).take ((t.length + BLOCK_DATA_SIZE - 1) / BLOCK_DATA_SIZE))
         else (S1, (collectChain S1 ((t.length + BLOCK_DATA_SIZE - 1) / BLOCK_DATA_SIZE) (((t.length + BLOCK_DATA_SIZE - 1) / BLOCK_DATA_SIZE) + 1) 1 []))).2 ((t.length + BLOCK_DATA_SIZE - 1) / BLOCK_DATA_SIZE) (if (collectChain S1 ((t.length + BLOCK_DATA_SIZE - 1) / BLOCK_DATA_SIZE) (((t.length + BLOCK_DATA_SIZE - 1) / BLOCK_DATA_SIZE) + 1) 1 []).length > ((t.length + BLOCK_DATA_SIZE - 1) / BLOCK_DATA_SIZE)
         then (((collectChain S1 ((t.length + BLOCK_DATA_SIZE - 1) / BLOCK_DATA_SIZE) (((t.length + BLOCK_DATA_SIZE - 1) / BLOCK_DATA_SIZE) + 1) 1 []).drop ((t.length + BLOCK_DATA_SIZE - 1) / BLOCK_DATA_SIZE)).foldl BlockStorage.clear_block S1,
               (collectChain S1 ((t.length + BLOCK_DATA_SIZE - 1) / BLOCK_DATA_SIZE) (((t.length + BLOCK_DATA_SIZE - 1) / BLOCK_DATA_SIZE) + 1) 1 []).take ((t.length + BLOCK_DATA_SIZE - 1) / BLOCK_DATA_SIZE))
         else (S1, (collectChain S1 ((t.length + BLOCK_DATA_SIZE - 1) / BLOCK_DATA_SIZE) (((t.length + BLOCK_DATA_SIZE - 1) / BLOCK_DATA_SIZE) + 1) 1 []))).1 0 1 0 t.length 0).2.2 ≠ t.length
         then Except.error "Bytes written does not match serialized length"
         else if (writePages t 1 (if (collectChain S1 ((t.length + BLOCK_DATA_SIZE - 1) / BLOCK_DATA_SIZE) (((t.length + BLOCK_DATA_SIZE - 1) / BLOCK_DATA_SIZE) + 1) 1 []).length > ((t.length + BLOCK_DATA_SIZE - 1) / BLOCK_DATA_SIZE)
         then (((collectChain S1 ((t.length + BLOCK_DATA_SIZE - 1) / BLOCK_DATA_SIZE) (((t.length + BLOCK_DATA_SIZE - 1) / BLOCK_DATA_SIZE) + 1) 1 []).drop ((t.length + BLOCK_DATA_SIZE - 1) / BLOCK_DATA_SIZE)).foldl BlockStorage.clear_block S1,
               (collectChain S1 ((t.length + BLOCK_DATA_SIZE - 1) / BLOCK_DATA_SIZE) (((t.length + BLOCK_DATA_SIZE - 1) / BLOCK_DATA_SIZE) + 1) 1 []).take ((t.length + BLOCK_DATA_SIZE - 1) / BLOCK_DATA_SIZE))
         else (S1, (collectChain S1 ((t.length + BLOCK_DATA_SIZE - 1) / BLOCK_DATA_SIZE) (((t.length + BLOCK_DATA_SIZE - 1) / BLOCK_DATA_SIZE) + 1) 1 []))).2 ((t.length + BLOCK_DATA_SIZE - 1) / BLOCK_DATA_SIZE) (if (collectChain S1 ((t.length + BLOCK_DATA_SIZE - 1) / BLOCK_DATA_SIZE) (((t.length + BLOCK_DATA_SIZE - 1) / BLOCK_DATA_SIZE) + 1) 1 []).length > ((t.length + BLOCK_DATA_SIZE - 1) / BLOCK_DATA_SIZE)
         then (((collectChain S1 ((t.length + BLOCK_DATA_SIZE - 1) / BLOCK_DATA_SIZE) (((t.length + BLOCK_DATA_SIZE - 1) / BLOCK_DATA_SIZE) + 1) 1 []).drop ((t.length + BLOCK_DATA_SIZE - 1) / BLOCK_DATA_SIZE)).foldl BlockStorage.clear_block S1,
               (collectChain S1 ((t.length + BLOCK_DATA_SIZE - 1) / BLOCK_DATA_SIZE) (((t.length + BLOCK_DATA_SIZE - 1) / BLOCK_DATA_SIZE) + 1) 1 []).take ((t.length + BLOCK_DATA_SIZE - 1) / BLOCK_DATA_SIZE))
         else (S1, (collectChain S1 ((t.length + BLOCK_DATA_SIZE - 1) / BLOCK_DATA_SIZE) (((t.length + BLOCK_DATA_SIZE - 1) / BLOCK_DATA_SIZE) + 1) 1 []))).1 0 1 0 t.length 0).2.1 ≠ 0
         then Except.error "Remaining bytes to write is not 0"
         else Except.ok ((writePages t 1 (if (collectChain S1 ((t.length + BLOCK_DATA_SIZE - 1) / BLOCK_DATA_SIZE) (((t.length + BLOCK_DATA_SIZE - 1) / BLOCK_DATA_SIZE) + 1) 1 []).length > ((t.length + BLOCK_DATA_SIZE - 1) / BLOCK_DATA_SIZE)
         then (((collectChain S1 ((t.length + BLOCK_DATA_SIZE - 1) / BLOCK_DATA_SIZE) (((t.length + BLOCK_DATA_SIZE - 1) / BLOCK_DATA_SIZE) + 1) 1 []).drop ((t.length + BLOCK_DATA_SIZE - 1) / BLOCK_DATA_SIZE)).foldl BlockStorage.clear_block S1,
               (collectChain S1 ((t.length + BLOCK_DATA_SIZE - 1) / BLOCK_DATA_SIZE) (((t.length + BLOCK_DATA_SIZE - 1) / BLOCK_DATA_SIZE) + 1) 1 []).take ((t.length + BLOCK_DATA_SIZE - 1) / BLOCK_DATA_SIZE))
         else (S1, (collectChain S1 ((t.length + BLOCK_DATA_SIZE - 1) / BLOCK_DATA_SIZE) (((t.length + BLOCK_DATA_SIZE - 1) / BLOCK_DATA_SIZE) + 1) 1 []))).2 ((t.length + BLOCK_DATA_SIZE - 1) / BLOCK_DATA_SIZE) (if (collectChain S1 ((t.length + BLOCK_DATA_SIZE - 1) / BLOCK_DATA_SIZE) (((t.length + BLOCK_DATA_SIZE - 1) / BLOCK_DATA_SIZE) + 1) 1 []).length > ((t.length + BLOCK_DATA_SIZE - 1) / BLOCK_DATA_SIZE)
         then (((collectChain S1 ((t.length + BLOCK_DATA_SIZE - 1) / BLOCK_DATA_SIZE) (((t.length + BLOCK_DATA_SIZE - 1) / BLOCK_DATA_SIZE) + 1) 1 []).drop ((t.length + BLOCK_DATA_SIZE - 1) / BLOCK_DATA_SIZE)).foldl BlockStorage.clear_block S1,
               (collectChain S1 ((t.length + BLOCK_DATA_SIZE - 1) / BLOCK_DATA_SIZE) (((t.length + BLOCK_DATA_SIZE - 1) / BLOCK_DATA_SIZE) + 1) 1 []).take ((t.length + BLOCK_DATA_SIZE - 1) / BLOCK_DATA_SIZE))
         else (S1, (collectChain S1 ((t.length + BLOCK_DATA_SIZE - 1) / BLOCK_DATA_SIZE) (((t.length + BLOCK_DATA_SIZE - 1) / BLOCK_DATA_SIZE) + 1) 1 []))).1 0 1 0 t.length 0).1, 1)) := rfl
    rw [e, hpages, hchain]
    have e2 : (if ([1] : List Nat).length > 1
        then ((([1] : List Nat).drop 1).foldl BlockStorage.clear_block S1,
              ([1] : List Nat).take 1)
        else (S1, ([1] : List Nat))) = (S1, ([1] : List Nat)) := rfl
    rw [e2]
    rw [if_neg (by rw [hb]; intro hcontra; exact hcontra rfl)]
    rw [if_neg (by rw [ha]; intro hcontra; exact hcontra rfl)]
  · unfold BlockStorage.load BlockStorage.used_blocks
    have hcnt2 : (writePages t 1 [1] 1 S1 0 1 0 t.length 0).1.counter = S1.counter :=
      hd (by simp)
    have hwk := hwalk ((writePages t 1 [1] 1 S1 0 1 0 t.length 0).1.counter + 1 + 1)
      (by omega) [] (fun h => absurd rfl h)
    rw [hwk]
    refine congrArg Except.ok ?_
    rw [if_pos (rfl : (0 : Nat) = 0), List.nil_append, List.drop_zero]
    refine congrArg (fun l => t ++ l) ?_
    apply map_range_congr
    · omega
    · intro o
      try simp only [Nat.sub_self, Nat.zero_mul, Nat.sub_zero]
      rw [hdata1]

/-- A corrupt single-block state: block 1 is a primary, last-in-chain
page whose header declares one byte more than a page holds. -/
def corruptState : BlockStorage :=
  { counter := 0, root := 0
    headers := fun b =>
      if b = 1 then
        { is_primary := true, index_in_chain := 0, primary_index := 1,
          next_block_offset := 0, previous_block_offset := 0,
          serialized_node_length := BLOCK_DATA_SIZE + 1 }
      else zeroHeader
    data := fun _ _ => 0 }

theorem corrupt_load_fails :
    corruptState.load 1 =
      Except.error "Serialized node length does not match actual length" := by
  unfold BlockStorage.load BlockStorage.used_blocks
  rw [loadGo]
  have hh : corruptState.get_block_header_data 1 =
      { is_primary := true, index_in_chain := 0, primary_index := 1,
        next_block_offset := 0, previous_block_offset := 0,
        serialized_node_length := BLOCK_DATA_SIZE + 1 } := rfl
  rw [hh]
  simp only [if_true, if_pos rfl]
  rw [if_pos (by
    simp only [List.nil_append, BlockStorage.get_block_bytes, List.length_map,
      List.length_range]
    omega)]

/-- C3 counterexample: the claim says load(store(s, 0)) returns exactly
s. Storing the single byte 42 into a fresh store and loading it back
returns a full page: the byte followed by 4054 zeros, because load
accumulates whole page data areas and only checks that the accumulated
length is not smaller than the declared length (block_storage.rs lines
312-341). -/
theorem c3_load_store_not_exact :
    (match BlockStorage.empty.store [42] 0 with
     | Except.ok p => p.1.load p.2
     | Except.error e => Except.error e) ≠ Except.ok [42] ∧
    (match BlockStorage.empty.store [42] 0 with
     | Except.ok p => p.1.load p.2
     | Except.error e => Except.error e) =
      Except.ok (42 :: List.replicate 4054 0) := by
  obtain ⟨S1, hstore, hload, _, _⟩ := store_empty_spec [42] (by norm_num)
  have hmatch : (match BlockStorage.empty.store [42] 0 with
     | Except.ok p => p.1.load p.2
     | Except.error e => Except.error e) =
      Except.ok (42 :: List.replicate 4054 0) := by
    rw [hstore]
    show S1.load 1 = _
    rw [hload]
    have hk : ((([42] : List Nat).length + BLOCK_DATA_SIZE - 1) / BLOCK_DATA_SIZE) *
        BLOCK_DATA_SIZE - ([42] : List Nat).length = 4054 := by
      norm_num [BLOCK_DATA_SIZE, BLOCK_HEADER_SIZE, BLOCK_SIZE]
    rw [hk, List.singleton_append]
  refine ⟨?_, hmatch⟩
  rw [hmatch]
  intro h
  have h2 := Except.ok.inj h
  have h3 := congrArg List.length h2
  rw [List.length_cons, List.length_replicate] at h3
  exact absurd h3 (by decide)

/-- C3 amended: three facts replace the claim. First, storing a fresh
record and loading it returns the payload followed by zero padding up to
a whole number of pages, not the payload exactly. Second, rewriting an
existing primary id with a shorter payload (stated here for new payloads
of at most one page) and loading returns the new payload followed by
page residue: leftover bytes of the old payload and zeros, the new
payload being recovered exactly as a prefix. Third, load does not
validate that the accumulated length equals the declared length: it
fails only when the accumulated length is strictly smaller, as on a
single-page chain declaring one byte more than a page holds. -/
theorem c3_block_store_round_trip_amended :
    (∀ s : List Nat, 1 ≤ s.length →
      ∃ S1, BlockStorage.empty.store s 0 = Except.ok (S1, 1) ∧
        S1.load 1 = Except.ok (s ++ List.replicate
          (((s.length + BLOCK_DATA_SIZE - 1) / BLOCK_DATA_SIZE) * BLOCK_DATA_SIZE -
            s.length) 0)) ∧
    (∀ s t : List Nat, 1 ≤ t.length → t.length ≤ s.length →
        t.length ≤ BLOCK_DATA_SIZE →
      ∃ S1 S2, BlockStorage.empty.store s 0 = Except.ok (S1, 1) ∧
        S1.store t 1 = Except.ok (S2, 1) ∧
        S2.load 1 = Except.ok (t ++ (List.range (BLOCK_DATA_SIZE - t.length)).map
          (fun o => if t.length + o < min s.length BLOCK_DATA_SIZE
                    then s.getD (t.length + o) 0 else 0))) ∧
    corruptState.load 1 =
      Except.error "Serialized node length does not match actual length" := by
  refine ⟨?_, ?_, corrupt_load_fails⟩
  · intro s hs
    obtain ⟨S1, hstore, hload, _, _⟩ := store_empty_spec s hs
    exact ⟨S1, hstore, hload⟩
  · intro s t ht1 hts htB
    obtain ⟨S1, hstore, _, hdata, hcnt⟩ := store_empty_spec s (by omega)
    obtain ⟨S2, hstore2, hload2⟩ := rewrite_shorter_spec s t ht1 hts htB S1 hdata hcnt
    exact ⟨S1, S2, hstore, hstore2, hload2⟩

/-- C3 amended witness: the amended theorem applied at the concrete
payloads s = 1, 2, 3 and t = 9. -/
theorem c3_block_store_round_trip_amended_witness :
    ∃ S1 S2, BlockStorage.empty.store [1, 2, 3] 0 = Except.ok (S1, 1) ∧
      S1.store [9] 1 = Except.ok (S2, 1) ∧
      S2.load 1 = Except.ok ([9] ++ (List.range (BLOCK_DATA_SIZE - 1)).map
        (fun o => if 1 + o < min ([1, 2, 3] : List Nat).length BLOCK_DATA_SIZE
                  then ([1, 2, 3] : List Nat).getD (1 + o) 0 else 0)) := by
  have h := c3_block_store_round_trip_amended.2.1 [1, 2, 3] [9]
    (by norm_num) (by norm_num) (by norm_num [BLOCK_DATA_SIZE, BLOCK_HEADER_SIZE, BLOCK_SIZE])
  obtain ⟨S1, S2, h1, h2, h3⟩ := h
  exact ⟨S1, S2, h1, h2, h3⟩

end BS

/-! ## The ANN tree insert path (src/structures/ann_tree.rs, C1)

ann_tree.rs uses Node with plain fields: metadata is a Vec<Vec<KVPair>>
and node_metadata a bare NodeMetadataIndex (unlike node.rs, whose Node
wraps both in LazyValue and which the same crate cannot compile against;
each claim is modelled against its cited file).  The node type, vectors,
ids, children, offset, is_root, parent_offset and k fields coincide with
node.rs.  Split cluster assignment comes from
balanced_k_modes_k_clusters, which draws from thread_rng, so it is a
parameter (an oracle returning index clusters); the concrete runs below
instantiate it with a fixed assignment. -/

namespace Tree

open NodeSer (NodeType)

/-- count_ones on a u8 (bytes are 8-bit, so eight binary digits). -/
def popCount (x : Nat) : Nat :=
  (List.range 8).foldl (fun acc i => acc + x / 2 ^ i % 2) 0

/-- hamming_distance from src/math/hamming_distance.rs: sum of the
popcounts of the bytewise xors. -/
def hamming_distance (a b : List Nat) : Nat :=
  (a.zip b).foldl (fun acc p => acc + popCount (p.1 ^^^ p.2)) 0

/-- Stable insertion into a list sorted ascending by key: the new
element goes after every element of like or smaller key, as Rust's
stable sort_by_key orders ties. -/
def insertSorted {α : Type} (key : α → Nat) (x : α) : List α → List α
  | [] => [x]
  | y :: ys => if key y ≤ key x then y :: insertSorted key x ys else x :: y :: ys

/-- Stable sort by key, modelling Vec::sort_by_key (a stable sort). -/
def sortByKey {α : Type} (key : α → Nat) (l : List α) : List α :=
  l.foldl (fun acc x => insertSorted key x acc) []

/-- Node as used by ann_tree.rs (see the section comment). -/
structure Node where
  vectors : List ByteStr
  ids : List Nat
  children : List Nat
  metadata : List (List KVPair)
  k : Nat
  node_type : NodeType
  offset : Nat
  is_root : Bool
  parent_offset : Option Nat
  node_metadata : NodeMetadataIndex
deriving DecidableEq, Repr

/-- Node::new_leaf (node.rs line 230); K is the constant from the
missing constants module.  node_metadata, a bare index here, starts
empty. -/
def Node.new_leaf (K : Nat) : Node :=
  { vectors := [], ids := [], children := [], metadata := [], k := K,
    node_type := NodeType.Leaf, offset := 0, is_root := false,
    parent_offset := none, node_metadata := NodeMetadataIndex.new }

/-- Node::new_internal (node.rs line 245). -/
def Node.new_internal (K : Nat) : Node :=
  { vectors := [], ids := [], children := [], metadata := [], k := K,
    node_type := NodeType.Internal, offset := 0, is_root := false,
    parent_offset := none, node_metadata := NodeMetadataIndex.new }

/-- Node::is_full (node.rs line 354). -/
def Node.is_full (n : Node) : Bool :=
  decide (n.vectors.length ≥ n.k)

/-- Modelled from the spec: ann_tree/storage.rs (StorageManager) is
absent from the sources.  Spec section 8 prescribes an arena-style
offset map: nodes are persisted as records keyed by their offset (the
record id), store_node assigns a fresh nonzero offset to a node that has
none (offset 0), persists the node under its offset and returns the
offset, load_node fetches a stored node, and root_offset /
set_root_offset keep the root pointer (0 meaning unset).  The map is an
association list in insertion order. -/
structure StorageManager where
  nodes : List (Nat × Node)
  next_offset : Nat
  root : Nat
deriving DecidableEq, Repr

/-- Modelled from the spec: StorageManager::load_node. -/
def StorageManager.load_node (sm : StorageManager) (offset : Nat) : Option Node :=
  (sm.nodes.find? (fun p => p.1 = offset)).map (fun p => p.2)

/-- Modelled from the spec: StorageManager::store_node.  Returns the
updated manager, the node with its assigned offset, and that offset. -/
def StorageManager.store_node (sm : StorageManager) (n : Node) :
    StorageManager × Node × Nat :=
  let offset := if n.offset = 0 then sm.next_offset else n.offset
  let stored := { n with offset := offset }
  let nodes :=
    if (sm.nodes.find? (fun p => p.1 = offset)).isSome then
      sm.nodes.map (fun p => if p.1 = offset then (offset, stored) else p)
    else
      sm.nodes ++ [(offset, stored)]
  ({ sm with nodes := nodes,
             next_offset := if n.offset = 0 then sm.next_offset + 1 else sm.next_offset },
   stored, offset)

/-- Modelled from the spec: StorageManager::root_offset. -/
def StorageManager.root_offset (sm : StorageManager) : Nat := sm.root

/-- Modelled from the spec: StorageManager::set_root_offset. -/
def StorageManager.set_root_offset (sm : StorageManager) (offset : Nat) :
    StorageManager :=
  { sm with root := offset }

/-- The insert_kv_pair double fold of Node::split (node.rs lines
297-304 and 341-347): aggregate every KV pair of every record into a
fresh NodeMetadataIndex.  insert_kv_pair can panic (see C10), hence the
Option. -/
def indexOfKVLists (kvss : List (List KVPair)) : Option NodeMetadataIndex :=
  kvss.foldlM (fun acc kvs => kvs.foldlM NodeMetadataIndex.insert_kv_pair acc)
    NodeMetadataIndex.new

/-- Node::split (node.rs lines 260-352) as called by ann_tree.rs (no
storage argument: metadata is plain here).  The oracle stands for
balanced_k_modes_k_clusters.  k is 2 for both node kinds.  none models
the panics: fewer than k keys, an empty cluster, an out-of-range index,
an internal sibling with mismatched or empty children, or an
insert_kv_pair panic.  The mutated node keeps cluster 0 and the
returned sibling carries cluster 1; leaves distribute (vectors, ids,
metadata), internals (vectors, children). -/
def Node.split (oracle : List ByteStr → Nat → List (List Nat)) (n : Node) :
    Option (Node × List Node) :=
  let k : Nat :=
    match n.node_type with
    | NodeType.Leaf => 2
    | NodeType.Internal => 2
  if n.vectors.length < k then none
  else
    let clusters_indices := oracle n.vectors k
    if clusters_indices.length ≠ k then none
    else if clusters_indices.any (fun c => c.isEmpty) then none
    else if ! clusters_indices.all (fun c => c.all (fun idx =>
        decide (idx < n.vectors.length) &&
        (match n.node_type with
         | NodeType.Leaf =>
             decide (idx < n.ids.length) && decide (idx < n.metadata.length)
         | NodeType.Internal => decide (idx < n.children.length)))) then none
    else
      let cIdx0 := clusters_indices.getD 0 []
      let cIdx1 := clusters_indices.getD 1 []
      let cVec := fun (c : List Nat) => c.map (fun idx => n.vectors.getD idx [])
      let cIds := fun (c : List Nat) =>
        match n.node_type with
        | NodeType.Leaf => c.map (fun idx => n.ids.getD idx 0)
        | NodeType.Internal => []
      let cMeta := fun (c : List Nat) =>
        match n.node_type with
        | NodeType.Leaf => c.map (fun idx => n.metadata.getD idx [])
        | NodeType.Internal => []
      let cChild := fun (c : List Nat) =>
        match n.node_type with
        | NodeType.Leaf => []
        | NodeType.Internal => c.map (fun idx => n.children.getD idx 0)
      do
      let sib_md ← indexOfKVLists (cMeta cIdx1)
      let sibling : Node :=
        { vectors := cVec cIdx1, ids := cIds cIdx1, children := cChild cIdx1,
          metadata := cMeta cIdx1, k := n.k, node_type := n.node_type,
          offset := 0, is_root := false, parent_offset := n.parent_offset,
          node_metadata := sib_md }
      if sibling.node_type = NodeType.Internal ∧
          (sibling.vectors.length ≠ sibling.children.length ∨
            sibling.children.isEmpty = true) then none
      else do
        let self_md ← indexOfKVLists (cMeta cIdx0)
        some ({ n with
                vectors := cVec cIdx0
                ids := cIds cIdx0
                children := cChild cIdx0
                metadata := cMeta cIdx0
                node_metadata := self_md }, [sibling])

/-- ANNTree::compute_node_metadata (ann_tree.rs lines 855-865): combine
the children's summaries; none models the unwrap panic on a missing
child. -/
def compute_node_metadata (sm : StorageManager) (node : Node) :
    Option NodeMetadataIndex := do
  let children ← node.children.mapM sm.load_node
  some (combine_filters (children.map (fun c => c.node_metadata)))

/-- The internal-arity panic guard repeated through ANNTree::insert. -/
def badSibling (s : Node) : Bool :=
  decide (s.node_type = NodeType.Internal ∧ s.children.length ≠ s.vectors.length)

/-- The sibling-storing map of ANNTree::insert (lines 183-190 and
265-272): set parent_offset, compute node_metadata, store; collect the
updated siblings and their offsets. -/
def storeSplitSiblings (sm : StorageManager) (parent_offset : Option Nat) :
    List Node → Option (StorageManager × List Node × List Nat)
  | [] => some (sm, [], [])
  | sib :: rest => do
      let sib := { sib with parent_offset := parent_offset }
      let md ← compute_node_metadata sm sib
      let sib := { sib with node_metadata := md }
      let (sm, sib, off) := sm.store_node sib
      let (sm, sibs, offs) ← storeSplitSiblings sm parent_offset rest
      some (sm, sib :: sibs, off :: offs)

/-- The new-root summary loop of ANNTree::insert (lines 205-209): load
each stored sibling, push its mode vector and its offset. -/
def addSiblingSummaries (B : Nat) (sm : StorageManager) :
    Node → List Nat → Option Node
  | nr, [] => some nr
  | nr, off :: rest => do
      let sibling ← sm.load_node off
      addSiblingSummaries B sm
        { nr with vectors := nr.vectors ++ [find_modes B sibling.vectors],
                  children := nr.children ++ [off] } rest

/-- The final sibling pass of the is_root branches (lines 218-226 and
301-311): arity guard, recompute node_metadata, store. -/
def finishSiblings (sm : StorageManager) : List Node → Option StorageManager
  | [] => some sm
  | s :: rest => do
      if badSibling s then none
      else
        let md ← compute_node_metadata sm s
        let (sm, _, _) := sm.store_node { s with node_metadata := md }
        finishSiblings sm rest

/-- The final sibling pass of the first-level parent branch (lines
250-259): arity guard, reparent, recompute node_metadata, store. -/
def reparentSiblingsChecked (sm : StorageManager) (parent_offset : Nat) :
    List Node → Option StorageManager
  | [] => some sm
  | s :: rest => do
      if badSibling s then none
      else
        let s := { s with parent_offset := some parent_offset }
        let md ← compute_node_metadata sm s
        let (sm, _, _) := sm.store_node { s with node_metadata := md }
        reparentSiblingsChecked sm parent_offset rest

/-- The final sibling pass of the in-loop parent branch (lines 336-340):
reparent, recompute node_metadata, store — no arity guard here. -/
def reparentSiblings (sm : StorageManager) (parent_offset : Nat) :
    List Node → Option StorageManager
  | [] => some sm
  | s :: rest => do
      let s := { s with parent_offset := some parent_offset }
      let md ← compute_node_metadata sm s
      let (sm, _, _) := sm.store_node { s with node_metadata := md }
      reparentSiblings sm parent_offset rest

/-- The while loop of ANNTree::insert (lines 262-344), fuelled; none on
fuel exhaustion stands for the unbounded upward splitting.  Each
iteration re-checks is_full, splits the current node, stores the
siblings, and either installs a new root (when current is the root) or
pushes the split into the parent (the v5 arity guard runs inside the
vector-push loop, before the parent is stored).  Line 312 recomputes the
new root summary into a local that is then dropped; the call is kept for
its possible panic.  Line 341 recomputes the parent summary locally:
the parent carries it into the next iteration without being
re-stored. -/
def insertUpLoop (B K : Nat) (oracle : List ByteStr → Nat → List (List Nat)) :
    Nat → StorageManager → Node → Option StorageManager
  | 0, _, _ => none
  | fuel + 1, sm, current_node =>
    if current_node.is_full then do
      let (current_node, sibs) ← Node.split oracle current_node
      let (sm, siblings, sibling_offsets) ←
        storeSplitSiblings sm current_node.parent_offset sibs
      if siblings.any badSibling then none
      else if current_node.is_root then do
        let new_root : Node :=
          { Node.new_internal K with
            is_root := true
            children := [current_node.offset] ++ sibling_offsets
            vectors := [find_modes B current_node.vectors] ++
              siblings.map (fun s => find_modes B s.vectors) }
        let (sm, new_root, _) := sm.store_node new_root
        let sm := sm.set_root_offset new_root.offset
        let current_node :=
          { current_node with is_root := false,
                              parent_offset := some new_root.offset }
        let siblings :=
          siblings.map (fun s => { s with parent_offset := some new_root.offset })
        let (sm, current_node, _) := sm.store_node current_node
        let sm ← finishSiblings sm siblings
        let _nm ← compute_node_metadata sm new_root
        insertUpLoop B K oracle fuel sm current_node
      else do
        let parent_offset ← current_node.parent_offset
        let parent0 ← sm.load_node parent_offset
        if siblings.any badSibling then none
        else
          let parent : Node :=
            { parent0 with
              children := parent0.children ++ [current_node.offset] ++ sibling_offsets,
              vectors := parent0.vectors ++ [find_modes B current_node.vectors] ++
                siblings.map (fun s => find_modes B s.vectors) }
          let (sm, parent, _) := sm.store_node parent
          let current_node := { current_node with parent_offset := some parent_offset }
          let (sm, _, _) := sm.store_node current_node
          let sm ← reparentSiblings sm parent_offset siblings
          let md ← compute_node_metadata sm parent
          insertUpLoop B K oracle fuel sm { parent with node_metadata := md }
    else some sm

/-- ANNTree::find_entrypoint descent (ann_tree.rs lines 407-435),
fuelled.  At an internal node: pair each key vector with its index and
Hamming distance to the query, stable-sort by distance, take the head
(unwrap panic on an empty node), follow that child.  At a leaf: return
its offset. -/
def find_entrypoint_go (sm : StorageManager) (vector : ByteStr) :
    Nat → Node → Option Nat
  | 0, _ => none
  | fuel + 1, node =>
    if node.node_type = NodeType.Internal then do
      let distances := sortByKey (fun p => p.2)
        (node.vectors.enum.map (fun p => (p.1, hamming_distance vector p.2)))
      let best ← distances.head?
      let child_offset ← node.children[best.1]?
      let best_node ← sm.load_node child_offset
      find_entrypoint_go sm vector fuel best_node
    else some node.offset

/-- ANNTree::find_entrypoint: start from the root node. -/
def find_entrypoint (sm : StorageManager) (vector : ByteStr) (fuel : Nat) :
    Option Nat := do
  let root ← sm.load_node sm.root_offset
  find_entrypoint_go sm vector fuel root

/-- ANNTree::insert (ann_tree.rs lines 175-405).  B is
QUANTIZED_VECTOR_SIZE and K the arity constant (both from the missing
constants module); the oracle stands for the randomized
balanced_k_modes_k_clusters.  The not-full branch (lines 346-404)
appends the entry and folds its KV pairs into the leaf summary with the
unwrap_or handling that coincides with foldKVIntoIndex; the full branch
(lines 181-345) splits and restructures but never appends (vector, id,
metadata) anywhere. -/
def ANNTree.insert (B K : Nat) (oracle : List ByteStr → Nat → List (List Nat))
    (fuel : Nat) (sm : StorageManager) (vector : ByteStr) (id : Nat)
    (metadata : List KVPair) : Option StorageManager := do
  let entrypoint ← find_entrypoint sm vector fuel
  let node ← sm.load_node entrypoint
  if node.is_full then do
    let (node, sibs) ← Node.split oracle node
    let (sm, siblings, sibling_offsets) ←
      storeSplitSiblings sm node.parent_offset sibs
    if siblings.any badSibling then none
    else if node.is_root then do
      let new_root0 : Node :=
        { Node.new_internal K with
          is_root := true
          children := [node.offset]
          vectors := [find_modes B node.vectors] }
      let new_root ← addSiblingSummaries B sm new_root0 sibling_offsets
      let (sm, new_root, _) := sm.store_node new_root
      let sm := sm.set_root_offset new_root.offset
      let node :=
        { node with is_root := false, parent_offset := some new_root.offset }
      let siblings :=
        siblings.map (fun s => { s with parent_offset := some new_root.offset })
      let (sm, _, _) := sm.store_node node
      finishSiblings sm siblings
    else do
      let parent_offset ← node.parent_offset
      let parent0 ← sm.load_node parent_offset
      let parent : Node :=
        { parent0 with
          children := parent0.children ++ [node.offset] ++ sibling_offsets,
          vectors := parent0.vectors ++ [find_modes B node.vectors] ++
            siblings.map (fun s => find_modes B s.vectors) }
      if parent.node_type = NodeType.Internal ∧
          parent.children.length ≠ parent.vectors.length then none
      else do
        let (sm, parent, _) := sm.store_node parent
        let node := { node with parent_offset := some parent_offset }
        let (sm, _, _) := sm.store_node node
        let sm ← reparentSiblingsChecked sm parent_offset siblings
        insertUpLoop B K oracle fuel sm parent
  else do
    if node.node_type ≠ NodeType.Leaf then none
    else do
      let node :=
        { node with vectors := node.vectors ++ [vector],
                    ids := node.ids ++ [id],
                    metadata := node.metadata ++ [metadata],
                    node_metadata := metadata.foldl foldKVIntoIndex node.node_metadata }
      let (sm, _, _) := sm.store_node node
      some sm

/-- A fixed cluster assignment standing for the randomized
balanced_k_modes_k_clusters on a two-element node: index 0 left, index 1
right (any assignment the randomized code can return exercises the same
insert path). -/
def c1Oracle : List ByteStr → Nat → List (List Nat) := fun _ _ => [[0], [1]]

/-- A full root leaf (K = 2, B = 1) holding ids 1 and 2. -/
def c1Root : Node :=
  { vectors := [[0], [3]], ids := [1, 2], children := [], metadata := [[], []],
    k := 2, node_type := NodeType.Leaf, offset := 1, is_root := true,
    parent_offset := none, node_metadata := NodeMetadataIndex.new }

/-- The store holding just that root. -/
def c1Init : StorageManager :=
  { nodes := [(1, c1Root)], next_offset := 2, root := 1 }

/-- The KV list of the inserted entry. -/
def c1Entry : List KVPair := [{ key := [107], value := KVValue.Integer 7 }]

/-- Inserting (vector [1], id 999, c1Entry) into the full root leaf. -/
def c1Run : Option StorageManager :=
  ANNTree.insert 1 2 c1Oracle 10 c1Init [1] 999 c1Entry

/-- The store after that insert. -/
def c1Final : StorageManager :=
  c1Run.getD { nodes := [], next_offset := 0, root := 0 }

/-- C1: the claim fails on the full-leaf path — ANNTree::insert loses
the entry.  With a full root leaf (ids 1 and 2) as entrypoint, inserting
(vector [1], id 999, one KV pair) completes: the leaf is split, the
sibling and a new root are persisted (three stored nodes, new root
offset), but id 999, vector [1] and the entry KV list appear in no
stored node — the full branch of insert (ann_tree.rs lines 181-345)
never appends (vector, id, metadata). -/
theorem c1_insert_drops_entry_when_leaf_is_full :
    c1Root.is_full = true ∧
    c1Init.load_node c1Init.root_offset = some c1Root ∧
    c1Run = some c1Final ∧
    c1Final.nodes.length = 3 ∧
    c1Final.root ≠ c1Init.root ∧
    ∀ p ∈ c1Final.nodes, (999 : Nat) ∉ p.2.ids ∧ ([1] : ByteStr) ∉ p.2.vectors ∧
      c1Entry ∉ p.2.metadata := by
  decide

/-! ### The search path (ann_tree.rs lines 437-520, C4)

ALPHA comes from the missing constants module and is a parameter; the
source clamps it to at least 1 before use.  Vec::sort_by_key is stable,
modelled by sortByKey.  The rayon par_iter pipelines preserve order. -/

/-- Sorted-insert length. -/
theorem insertSorted_length {α : Type} (key : α → Nat) (x : α) (l : List α) :
    (insertSorted key x l).length = l.length + 1 := by
  induction l with
  | nil => rfl
  | cons y ys ih =>
      rw [insertSorted]
      by_cases hc : key y ≤ key x
      · rw [if_pos hc, List.length_cons, ih, List.length_cons]
      · rw [if_neg hc, List.length_cons, List.length_cons]

/-- Members of a sorted insert come from the element or the list. -/
theorem insertSorted_mem {α : Type} (key : α → Nat) (x b : α) (l : List α)
    (hb : b ∈ insertSorted key x l) : b = x ∨ b ∈ l := by
  induction l with
  | nil =>
      rw [insertSorted] at hb
      exact Or.inl (List.mem_singleton.mp hb)
  | cons y ys ih =>
      rw [insertSorted] at hb
      by_cases hc : key y ≤ key x
      · rw [if_pos hc] at hb
        rcases List.mem_cons.mp hb with h1 | h2
        · exact Or.inr (h1 ▸ List.mem_cons_self _ _)
        · rcases ih h2 with h3 | h4
          · exact Or.inl h3
          · exact Or.inr (List.mem_cons_of_mem _ h4)
      · rw [if_neg hc] at hb
        rcases List.mem_cons.mp hb with h1 | h2
        · exact Or.inl h1
        · exact Or.inr h2

/-- Sorted insert preserves ascending order by key. -/
theorem insertSorted_pairwise {α : Type} (key : α → Nat) (x : α) (l : List α)
    (h : l.Pairwise (fun a b => key a ≤ key b)) :
    (insertSorted key x l).Pairwise (fun a b => key a ≤ key b) := by
  induction l with
  | nil =>
      rw [insertSorted]
      exact List.pairwise_singleton _ _
  | cons y ys ih =>
      rw [List.pairwise_cons] at h
      rw [insertSorted]
      by_cases hc : key y ≤ key x
      · rw [if_pos hc, List.pairwise_cons]
        constructor
        · intro b hb
          rcases insertSorted_mem key x b ys hb with h1 | h2
          · rw [h1]; exact hc
          · exact h.1 b h2
        · exact ih h.2
      · rw [if_neg hc, List.pairwise_cons]
        constructor
        · intro b hb
          rcases List.mem_cons.mp hb with h1 | h2
          · rw [h1]; omega
          · have := h.1 b h2
            omega
        · exact List.pairwise_cons.mpr ⟨h.1, h.2⟩

/-- The sort fold preserves ascending order. -/
theorem foldl_insertSorted_pairwise {α : Type} (key : α → Nat) (l : List α) :
    ∀ acc : List α, acc.Pairwise (fun a b => key a ≤ key b) →
      (l.foldl (fun a x => insertSorted key x a) acc).Pairwise
        (fun a b => key a ≤ key b) := by
  induction l with
  | nil => exact fun acc hacc => hacc
  | cons y ys ih =>
      intro acc hacc
      exact ih _ (insertSorted_pairwise key y acc hacc)

/-- sortByKey sorts ascending by key. -/
theorem sortByKey_pairwise {α : Type} (key : α → Nat) (l : List α) :
    (sortByKey key l).Pairwise (fun a b => key a ≤ key b) :=
  foldl_insertSorted_pairwise key l [] List.Pairwise.nil

/-- The sort fold length. -/
theorem foldl_insertSorted_length {α : Type} (key : α → Nat) (l : List α) :
    ∀ acc : List α,
      (l.foldl (fun a x => insertSorted key x a) acc).length =
        acc.length + l.length := by
  induction l with
  | nil => intro acc; rfl
  | cons y ys ih =>
      intro acc
      rw [List.foldl_cons, ih, insertSorted_length, List.length_cons]
      omega

/-- sortByKey preserves length. -/
theorem sortByKey_length {α : Type} (key : α → Nat) (l : List α) :
    (sortByKey key l).length = l.length := by
  rw [sortByKey, foldl_insertSorted_length, List.length_nil, Nat.zero_add]

/-- The scan loop of ANNTree::collect_top_k_with_filters (ann_tree.rs
lines 542-564) over the distance-sorted candidates.  none models the
panics: an out-of-range metadata index, and the index k - 1 when k = 0
(the usize k - 1 wraps and the break-condition access
top_k_values[k - 1] is out of bounds as soon as the guard
top_k_values.len() >= k holds, which at k = 0 is immediate). -/
def collect_filters_go (k : Nat) (filters : Filter)
    (metadata_items : List (List KVPair)) :
    List (Nat × Nat) → List (Nat × Nat) → Option (List (Nat × Nat))
  | [], top_k_values => some top_k_values
  | (idx, distance) :: rest, top_k_values =>
      if k ≤ top_k_values.length ∧ k = 0 then none
      else if k ≤ top_k_values.length ∧
          (top_k_values.getD (k - 1) (0, 0)).2 ≤ distance then
        some top_k_values
      else
        match metadata_items[idx]? with
        | none => none
        | some md =>
            if ! Filters.should_prune_metadata filters md then
              if top_k_values.length < k then
                collect_filters_go k filters metadata_items rest
                  (top_k_values ++ [(idx, distance)])
              else if distance < (top_k_values.getD (k - 1) (0, 0)).2 then
                collect_filters_go k filters metadata_items rest
                  (sortByKey (fun p => p.2)
                    (top_k_values.dropLast ++ [(idx, distance)]))
              else
                collect_filters_go k filters metadata_items rest top_k_values
            else
              collect_filters_go k filters metadata_items rest top_k_values

/-- ANNTree::collect_top_k_with_filters (ann_tree.rs lines 522-567):
pair each vector with its index and Hamming distance to the query,
stable-sort ascending by distance, then scan with pruning and the
bounded-size best list. -/
def collect_top_k_with_filters (query : ByteStr) (vector_items : List ByteStr)
    (metadata_items : List (List KVPair)) (filters : Filter) (k : Nat) :
    Option (List (Nat × Nat)) :=
  collect_filters_go k filters metadata_items
    (sortByKey (fun p => p.2)
      (vector_items.enum.map (fun p => (p.1, hamming_distance p.2 query)))) []

/-- The scan loop of ANNTree::collect_top_k_with_nodes (ann_tree.rs
lines 589-617): as collect_filters_go, but the candidate child node is
loaded before the prune check (none models a missing child) and pruning
reads the child node_metadata. -/
def collect_nodes_go (sm : StorageManager) (k : Nat) (filters : Filter)
    (children : List Nat) :
    List (Nat × Nat) → List (Nat × Nat × Node) → Option (List (Nat × Nat × Node))
  | [], top_k_values => some top_k_values
  | (idx, distance) :: rest, top_k_values =>
      if k ≤ top_k_values.length ∧ k = 0 then none
      else if k ≤ top_k_values.length ∧
          (top_k_values.getD (k - 1) (0, 0, Node.new_leaf 0)).2.1 ≤ distance then
        some top_k_values
      else
        match children[idx]? with
        | none => none
        | some child_offset =>
            match sm.load_node child_offset with
            | none => none
            | some child_node =>
                if ! Filters.should_prune filters child_node.node_metadata then
                  if top_k_values.length < k then
                    collect_nodes_go sm k filters children rest
                      (top_k_values ++ [(idx, distance, child_node)])
                  else if distance <
                      (top_k_values.getD (k - 1) (0, 0, Node.new_leaf 0)).2.1 then
                    collect_nodes_go sm k filters children rest
                      (sortByKey (fun p => p.2.1)
                        (top_k_values.dropLast ++ [(idx, distance, child_node)]))
                  else
                    collect_nodes_go sm k filters children rest top_k_values
                else
                  collect_nodes_go sm k filters children rest top_k_values

/-- ANNTree::collect_top_k_with_nodes (ann_tree.rs lines 569-620). -/
def collect_top_k_with_nodes (sm : StorageManager) (query : ByteStr)
    (items : List ByteStr) (children : List Nat) (filters : Filter) (k : Nat) :
    Option (List (Nat × Nat × Node)) :=
  collect_nodes_go sm k filters children
    (sortByKey (fun p => p.2)
      (items.enum.map (fun p => (p.1, hamming_distance p.2 query)))) []

/-- ANNTree::traverse (ann_tree.rs lines 468-520), fuelled (the source
recursion is unbounded on a cyclic child graph).  At a leaf: the
filtered top-k indices are mapped to (id, distance, metadata), the
index panics modelled as none.  At an internal node: the source clamps
ALPHA to at least 1 into a local alpha (written inline here), beams into
the best alpha children, recurses, flat-maps in order, sorts the
combined results ascending by distance and truncates to alpha — not to
k.  The unused depth argument of the source is dropped. -/
def traverse (ALPHA : Nat) (sm : StorageManager) (filters : Filter) :
    Nat → ByteStr → Node → Nat → Option (List (Nat × Nat × List KVPair))
  | 0, _, _, _ => none
  | fuel + 1, vector, node, k =>
      if node.node_type = NodeType.Leaf then
        match collect_top_k_with_filters vector node.vectors node.metadata
            filters k with
        | none => none
        | some picked =>
            picked.mapM (fun p =>
              match node.ids[p.1]?, node.metadata[p.1]? with
              | some id, some md => some (id, p.2, md)
              | _, _ => none)
      else
        match collect_top_k_with_nodes sm vector node.vectors node.children
            filters (if ALPHA ≤ 1 then 1 else ALPHA) with
        | none => none
        | some best_children =>
            match best_children.mapM
                (fun c => traverse ALPHA sm filters fuel vector c.2.2 k) with
            | none => none
            | some results =>
                some ((sortByKey (fun p => p.2.1) results.flatten).take
                  (if ALPHA ≤ 1 then 1 else ALPHA))

/-- ANNTree::search (ann_tree.rs lines 437-466): traverse from the
root, sort the candidates ascending by distance, truncate to top_k and
project to (id, metadata). -/
def ANNTree.search (ALPHA : Nat) (sm : StorageManager) (fuel : Nat)
    (vector : ByteStr) (top_k : Nat) (filters : Filter) :
    Option (List (Nat × List KVPair)) :=
  match sm.load_node sm.root_offset with
  | none => none
  | some node =>
      match traverse ALPHA sm filters fuel vector node top_k with
      | none => none
      | some candidates =>
          some (((sortByKey (fun p => p.2.1) candidates).take top_k).map
            (fun p => (p.1, p.2.2)))

/-- The record KV list shared by the three counterexample records. -/
def c4Kvs : List KVPair := [{ key := [107], value := KVValue.String [97] }]

/-- An equality filter every record matches. -/
def c4Filter : Filter := Filter.Eq [107] [97]

/-- A leaf holding three matching records at offset 2. -/
def c4Leaf : Node :=
  { vectors := [[0], [1], [2]], ids := [10, 11, 12], children := []
    metadata := [c4Kvs, c4Kvs, c4Kvs], k := 4, node_type := NodeType.Leaf
    offset := 2, is_root := false, parent_offset := some 1
    node_metadata := { data :=
      [([107], { values := [[97]], int_range := none, float_range := none })] } }

/-- An internal root whose single child is that leaf. -/
def c4Root : Node :=
  { vectors := [[0]], ids := [], children := [2], metadata := [], k := 4
    node_type := NodeType.Internal, offset := 1, is_root := true
    parent_offset := none
    node_metadata := { data :=
      [([107], { values := [[97]], int_range := none, float_range := none })] } }

/-- The store holding root and leaf. -/
def c4Sm : StorageManager :=
  { nodes := [(1, c4Root), (2, c4Leaf)], next_offset := 3, root := 1 }

/-- C4 counterexample: with ALPHA = 2 and top_k = 3, the explored
subtree (the root's only child, so the beam explores everything) holds
three records matching the filter, yet search returns only two results:
the internal level truncates the combined results to alpha
(all_results.truncate(alpha), ann_tree.rs line 517), not to top_k as
the claim states. -/
theorem c4_internal_truncation_loses_results :
    (∀ m ∈ c4Leaf.metadata, matchesFilter c4Filter m = true) ∧
    c4Leaf.metadata.length = 3 ∧
    c4Sm.load_node c4Sm.root_offset = some c4Root ∧
    c4Root.node_type = NodeType.Internal ∧
    c4Root.children = [c4Leaf.offset] ∧
    c4Sm.load_node 2 = some c4Leaf ∧
    ANNTree.search 2 c4Sm 10 [0] 3 c4Filter =
      some [(10, c4Kvs), (11, c4Kvs)] := by
  decide

/-- C4 amended: whenever search succeeds it returns the projection of a
candidate list sorted ascending by Hamming distance and truncated to
top_k; but each internal level of the traversal truncates its combined
results to alpha = max(ALPHA, 1) — not to top_k — so when the root is
internal the whole result also has at most alpha entries (and search
can return fewer than top_k matching records; see the
counterexample). -/
theorem c4_search_sorted_and_alpha_truncated (ALPHA : Nat)
    (sm : StorageManager) (fuel : Nat) (vector : ByteStr) (top_k : Nat)
    (filters : Filter) (res : List (Nat × List KVPair))
    (hres : ANNTree.search ALPHA sm fuel vector top_k filters = some res) :
    ∃ cands : List (Nat × Nat × List KVPair),
      res = cands.map (fun p => (p.1, p.2.2)) ∧
      cands.Pairwise (fun a b => a.2.1 ≤ b.2.1) ∧
      cands.length ≤ top_k ∧
      (∀ root, sm.load_node sm.root_offset = some root →
        root.node_type = NodeType.Internal →
        cands.length ≤ (if ALPHA ≤ 1 then 1 else ALPHA)) := by
  cases hload : sm.load_node sm.root_offset with
  | none =>
      rw [ANNTree.search, hload] at hres
      simp at hres
  | some node =>
      rw [ANNTree.search, hload] at hres
      dsimp only at hres
      cases htrav : traverse ALPHA sm filters fuel vector node top_k with
      | none =>
          rw [htrav] at hres
          simp at hres
      | some candidates =>
          rw [htrav] at hres
          dsimp only at hres
          have hreseq : res =
              ((sortByKey (fun p => p.2.1) candidates).take top_k).map
                (fun p => (p.1, p.2.2)) := (Option.some.inj hres).symm
          refine ⟨(sortByKey (fun p => p.2.1) candidates).take top_k, hreseq,
            ?_, ?_, ?_⟩
          · exact List.Pairwise.sublist (List.take_sublist _ _)
              (sortByKey_pairwise _ _)
          · exact List.length_take_le _ _
          · intro root hload2 hint
            have hnode : node = root := Option.some.inj hload2
            rw [← hnode] at hint
            have hlen : candidates.length ≤ (if ALPHA ≤ 1 then 1 else ALPHA) := by
              cases fuel with
              | zero =>
                  rw [traverse] at htrav
                  simp at htrav
              | succ f =>
                  rw [traverse] at htrav
                  rw [if_neg (by
                    rw [hint]
                    intro hcontra
                    exact NodeSer.NodeType.noConfusion hcontra)] at htrav
                  cases hbc : collect_top_k_with_nodes sm vector node.vectors
                      node.children filters (if ALPHA ≤ 1 then 1 else ALPHA) with
                  | none =>
                      rw [hbc] at htrav
                      simp at htrav
                  | some bc =>
                      rw [hbc] at htrav
                      dsimp only at htrav
                      cases hmm : bc.mapM
                          (fun c => traverse ALPHA sm filters f vector c.2.2
                            top_k) with
                      | none =>
                          rw [hmm] at htrav
                          simp at htrav
                      | some results =>
                          rw [hmm] at htrav
                          dsimp only at htrav
                          have hcand := Option.some.inj htrav
                          rw [← hcand]
                          exact List.length_take_le _ _
            calc ((sortByKey (fun p => p.2.1) candidates).take top_k).length
                ≤ (sortByKey (fun p => p.2.1) candidates).length :=
                  List.Sublist.length_le (List.take_sublist _ _)
              _ = candidates.length := sortByKey_length _ _
              _ ≤ _ := hlen

/-- C4 amended witness: the theorem at the counterexample input. -/
theorem c4_search_sorted_and_alpha_truncated_witness :
    ∃ cands : List (Nat × Nat × List KVPair),
      [(10, c4Kvs), (11, c4Kvs)] = cands.map (fun p => (p.1, p.2.2)) ∧
      cands.Pairwise (fun a b => a.2.1 ≤ b.2.1) ∧
      cands.length ≤ 3 ∧
      (∀ root, c4Sm.load_node c4Sm.root_offset = some root →
        root.node_type = NodeSer.NodeType.Internal →
        cands.length ≤ (if (2 : Nat) ≤ 1 then 1 else 2)) :=
  c4_search_sorted_and_alpha_truncated 2 c4Sm 10 [0] 3 c4Filter
    [(10, c4Kvs), (11, c4Kvs)] (by decide)

end Tree

end Haystack
